import Mathlib

/-!
# Verification of the py-macaroon-bakery third-party caveat machinery

A shallow embedding, in Lean 4, of the parts of the `macaroonbakery`
Python package relevant to the claims under scrutiny:

* the uvarint codec (`macaroonbakery/codec.py`, `_encode_uvarint` /
  `_decode_uvarint`);
* the namespace serialization (`macaroonbakery/namespace.py`);
* the third-party caveat codec (`macaroonbakery/codec.py`), together with
  byte-exact models of the auxiliary encodings it uses (UTF-8, base64,
  the flat JSON objects of the V1 format) and an executable model of the
  NaCl `Box` authenticated encryption it delegates to;
* the in-memory ops store (`macaroonbakery/store.py`);
* the discharge engine (`macaroonbakery/discharge.py`);
* the HTTP discharge-retry hook (`macaroonbakery/httpbakery/client.py`);
* the `time-before` caveat constructor
  (`macaroonbakery/checkers/checkers.py`).

Python `str` values are modelled as `List Char` (Lean `Char` is exactly a
Unicode scalar value, as in Python), `bytes` as `List Nat` with every
element `< 256`.  Fallible Python code (raising exceptions) is modelled
with `Except`; the distinct exception sites are told apart by the
constructors of an error type rather than by their formatted messages.
-/

/-- Python `str`: a sequence of Unicode scalar values. -/
abbrev PyStr := List Char

/-- Python `bytes`: a sequence of byte values (each `< 256` whenever the
producing code is faithful to Python). -/
abbrev PyBytes := List Nat

/-- Predicate: all elements of a byte string are actual bytes. -/
def IsBytes (bs : PyBytes) : Prop := ∀ b ∈ bs, b < 256

instance : DecidablePred IsBytes := fun bs =>
  inferInstanceAs (Decidable (∀ b ∈ bs, b < 256))

namespace Codec

/-! ## Uvarint (`codec.py`, `_encode_uvarint` / `_decode_uvarint`)

`_encode_uvarint(n, data)` appends the little-endian 7-bit groups of `n`
to `data`; we model it as the list of bytes appended.  `_decode_uvarint`
is the source's accumulator loop made explicit. -/

/-- `_encode_uvarint` from `codec.py`: emit `n & 127`, shift by 7, stop
when the remainder is zero (the final byte has its high bit clear, the
others have it set). -/
def encode_uvarint (n : Nat) : List Nat :=
  if n < 128 then [n]
  else (n &&& 127 ||| 128) :: encode_uvarint (n >>> 7)
termination_by n
decreasing_by
  have : n >>> 7 = n / 128 := by
    simp [Nat.shiftRight_eq_div_pow]
  omega

/-- The loop body of `_decode_uvarint` from `codec.py`: state is
`(n, shift, length)`; each byte contributes its low 7 bits at the current
shift; the loop breaks at the first byte with the high bit clear. -/
def decode_uvarint_loop : List Nat → Nat → Nat → Nat → Nat × Nat
  | [], n, _, length => (n, length)
  | b :: rest, n, shift, length =>
      let n' := n ||| ((b &&& 127) <<< shift)
      if b &&& 128 = 0 then (n', length + 1)
      else decode_uvarint_loop rest n' (shift + 7) (length + 1)

/-- `_decode_uvarint` from `codec.py`: returns the decoded integer and the
number of bytes read. -/
def decode_uvarint (data : List Nat) : Nat × Nat :=
  decode_uvarint_loop data 0 0 0

/-! Helper lemmas about the bit operations used by the uvarint codec. -/

theorem and_127_eq_mod (n : Nat) : n &&& 127 = n % 128 := by
  have h : (127 : Nat) = 2 ^ 7 - 1 := by norm_num
  rw [h, Nat.and_pow_two_sub_one_eq_mod]

theorem and_128_eq_zero_of_lt {n : Nat} (h : n < 128) : n &&& 128 = 0 := by
  have h128 : (128 : Nat) = 2 ^ 7 := by norm_num
  rw [h128, Nat.and_two_pow]
  have : n.testBit 7 = false := Nat.testBit_lt_two_pow (by norm_num at h ⊢; omega)
  simp [this]

theorem encode_head_and_128 (n : Nat) :
    (n &&& 127 ||| 128) &&& 128 ≠ 0 := by
  intro hcontra
  have h128 : (128 : Nat) = 2 ^ 7 := by norm_num
  have h7 : ((n &&& 127 ||| 128) &&& 128).testBit 7 = true := by
    rw [Nat.testBit_and, Nat.testBit_or]
    have t : Nat.testBit 128 7 = true := by decide
    simp [t]
  rw [hcontra] at h7
  simp at h7

theorem testBit_mod_128 (x j : Nat) :
    (x % 128).testBit j = (decide (j < 7) && x.testBit j) := by
  have h128 : (128 : Nat) = 2 ^ 7 := by norm_num
  rw [h128, Nat.testBit_mod_two_pow]

theorem encode_head_and_127 (n : Nat) :
    (n &&& 127 ||| 128) &&& 127 = n &&& 127 := by
  apply Nat.eq_of_testBit_eq
  intro j
  have h127 : (127 : Nat) = 2 ^ 7 - 1 := by norm_num
  have h128 : (128 : Nat) = 2 ^ 7 := by norm_num
  rw [Nat.testBit_and, Nat.testBit_or, Nat.testBit_and, h127, h128,
    Nat.testBit_two_pow_sub_one, Nat.testBit_two_pow]
  by_cases hj : j < 7
  · have : ¬(7 = j) := by omega
    simp [hj, this]
  · simp [hj]

/-- The two 7-bit halves reassemble: the heart of the uvarint round trip. -/
theorem mod_lor_shiftRight (n shift : Nat) :
    ((n &&& 127) <<< shift) ||| ((n >>> 7) <<< (shift + 7)) = n <<< shift := by
  apply Nat.eq_of_testBit_eq
  intro j
  rw [Nat.testBit_or, Nat.testBit_shiftLeft, Nat.testBit_shiftLeft,
    Nat.testBit_shiftLeft, and_127_eq_mod]
  have h128 : (128 : Nat) = 2 ^ 7 := by norm_num
  by_cases h1 : j < shift
  · have : ¬(j ≥ shift) := by omega
    have : ¬(j ≥ shift + 7) := by omega
    simp [*]
  · by_cases h2 : j < shift + 7
    · have hge : j ≥ shift := by omega
      have hlt : ¬(j ≥ shift + 7) := by omega
      have hsub : j - shift < 7 := by omega
      simp [hge, hlt, testBit_mod_128, hsub]
    · have hge : j ≥ shift := by omega
      have hge7 : j ≥ shift + 7 := by omega
      have hsub : ¬(j - shift < 7) := by omega
      have harith : 7 + (j - (shift + 7)) = j - shift := by omega
      simp [hge, hge7, testBit_mod_128, hsub,
        Nat.testBit_shiftRight, harith]

/-- Eliminating the loop of `_decode_uvarint` against `_encode_uvarint`. -/
theorem decode_uvarint_loop_encode (n : Nat) :
    ∀ acc shift len, decode_uvarint_loop (encode_uvarint n) acc shift len =
      (acc ||| (n <<< shift), len + (encode_uvarint n).length) := by
  induction n using Nat.strong_induction_on with
  | _ n ih =>
    intro acc shift len
    by_cases h : n < 128
    · rw [encode_uvarint, if_pos h]
      simp only [decode_uvarint_loop, and_128_eq_zero_of_lt h, if_pos rfl]
      have : n &&& 127 = n := by
        rw [and_127_eq_mod]; omega
      simp [this]
    · rw [encode_uvarint, if_neg h]
      simp only [decode_uvarint_loop]
      rw [if_neg (encode_head_and_128 n)]
      have hlt : n >>> 7 < n := by
        have : n >>> 7 = n / 128 := by
          simp [Nat.shiftRight_eq_div_pow]
        omega
      rw [ih _ hlt]
      rw [encode_head_and_127, Nat.or_assoc, mod_lor_shiftRight]
      simp only [List.length_cons, Prod.mk.injEq]
      refine ⟨trivial, by omega⟩


/-- The uvarint round trip, unconditionally (shared helper; the claim
restricts it to `n ≤ 2^64 - 1`). -/
theorem decode_encode_uvarint (n : Nat) :
    decode_uvarint (encode_uvarint n) = (n, (encode_uvarint n).length) := by
  rw [decode_uvarint, decode_uvarint_loop_encode]
  simp

end Codec

/-! ## `MemoryOpsStore` (`store.py`)

The store's `_store` dict is modelled as an insertion-ordered association
list; `put_ops(key, time, *ops)` inserts only if the key is absent, and
`get_ops` raises `KeyError` on a missing key. -/

namespace Store

/-- An operation `(entity, action)` (`Op` in the bakery). -/
structure Op where
  entity : PyStr
  action : PyStr
deriving DecidableEq, Repr

/-- The `_store` dict of `MemoryOpsStore`. -/
abbrev OpsStore := List (PyStr × List Op)

/-- `dict.get`: first binding of the key, if any. -/
def storeGet (s : OpsStore) (key : PyStr) : Option (List Op) :=
  match s with
  | [] => none
  | (k, v) :: rest => if k = key then some v else storeGet rest key

/-- `MemoryOpsStore.put_ops` from `store.py`: a no-op when the key is
already present (the `time` argument is accepted and ignored, as in the
source). -/
def put_ops (s : OpsStore) (key : PyStr) (_time : Nat) (ops : List Op) :
    OpsStore :=
  match storeGet s key with
  | none => s ++ [(key, ops)]
  | some _ => s

/-- `MemoryOpsStore.get_ops` from `store.py`: `KeyError` when absent. -/
def get_ops (s : OpsStore) (key : PyStr) : Except PyStr (List Op) :=
  match storeGet s key with
  | none => .error ("cannot get operations for ".data ++ key)
  | some ops => .ok ops

/-- A put trace: the sequence of `put_ops` calls applied to a fresh store. -/
def runPuts (tr : List (PyStr × Nat × List Op)) : OpsStore :=
  tr.foldl (fun s e => put_ops s e.1 e.2.1 e.2.2) []

theorem storeGet_append_none {s : OpsStore} {key k : PyStr} (ops : List Op)
    (h : ¬k = key) : storeGet (s ++ [(key, ops)]) k = storeGet s k := by
  induction s with
  | nil =>
    have h' : ¬key = k := fun e => h e.symm
    simp [storeGet, h']
  | cons hd tl ih =>
    by_cases hk : hd.1 = k <;> simp [storeGet, hk, ih]

theorem storeGet_append_self (s : OpsStore) (key : PyStr) (ops : List Op)
    (h : storeGet s key = none) :
    storeGet (s ++ [(key, ops)]) key = some ops := by
  induction s with
  | nil => simp [storeGet]
  | cons hd tl ih =>
    by_cases hk : hd.1 = key
    · simp [storeGet, hk] at h
    · simp [storeGet, hk] at h ⊢
      exact ih h

/-- After any `put_ops` for `key`, `key` is present. -/
theorem storeGet_put_isSome (s : OpsStore) (key : PyStr) (t : Nat)
    (ops : List Op) : (storeGet (put_ops s key t ops) key).isSome := by
  unfold put_ops
  cases h : storeGet s key with
  | none => simp [storeGet_append_self s key ops h]
  | some v => simp [h]


/-- A second `put_ops` for the same key is a no-op, whatever the time or
the operations. -/
theorem put_ops_put_ops (s : OpsStore) (key : PyStr) (t t' : Nat)
    (ops1 ops2 : List Op) :
    put_ops (put_ops s key t ops1) key t' ops2 = put_ops s key t ops1 := by
  have h := storeGet_put_isSome s key t ops1
  cases hg : storeGet (put_ops s key t ops1) key with
  | none => rw [hg] at h; simp at h
  | some v =>
    generalize hX : put_ops s key t ops1 = X at hg ⊢
    simp [put_ops, hg]

theorem get_ops_after_put (s : OpsStore) (key : PyStr) (t : Nat)
    (ops1 : List Op) (h : storeGet s key = none) :
    get_ops (put_ops s key t ops1) key = .ok ops1 := by
  unfold put_ops get_ops
  rw [h, storeGet_append_self s key ops1 h]

theorem storeGet_put_none_iff (s : OpsStore) (e : PyStr × Nat × List Op)
    (key : PyStr) :
    storeGet (put_ops s e.1 e.2.1 e.2.2) key = none ↔
      (storeGet s key = none ∧ ¬e.1 = key) := by
  by_cases hk : e.1 = key
  · subst hk
    have h := storeGet_put_isSome s e.1 e.2.1 e.2.2
    constructor
    · intro hnone; rw [hnone] at h; simp at h
    · intro ⟨_, hc⟩; exact absurd rfl hc
  · unfold put_ops
    cases hg : storeGet s e.1 with
    | none =>
      have hkk : ¬key = e.1 := fun hkk => hk hkk.symm
      rw [storeGet_append_none _ hkk]
      simp [hk]
    | some v => simp [hk]

/-- On any store reachable by `put_ops` calls from the fresh store,
`get_ops key` raises `KeyError` exactly when no `put_ops` for `key` was
ever made. -/
theorem storeGet_runPuts_none_iff (tr : List (PyStr × Nat × List Op))
    (key : PyStr) :
    storeGet (runPuts tr) key = none ↔ ∀ e ∈ tr, ¬e.1 = key := by
  suffices h : ∀ s, storeGet (tr.foldl (fun s e => put_ops s e.1 e.2.1 e.2.2) s)
      key = none ↔ (storeGet s key = none ∧ ∀ e ∈ tr, ¬e.1 = key) by
    rw [runPuts, h]
    simp [storeGet]
  induction tr with
  | nil => intro s; simp
  | cons hd tl ih =>
    intro s
    simp only [List.foldl_cons, List.mem_cons]
    rw [ih, storeGet_put_none_iff]
    constructor
    · rintro ⟨⟨h1, h2⟩, h3⟩
      refine ⟨h1, ?_⟩
      intro e he
      rcases he with he | he
      · subst he; exact h2
      · exact h3 e he
    · rintro ⟨h1, h2⟩
      exact ⟨⟨h1, h2 hd (Or.inl rfl)⟩, fun e he => h2 e (Or.inr he)⟩

end Store




/-! ## UTF-8

`str.encode('utf-8')` / `bytes.decode('utf-8')` as used throughout the
codec.  The encoder emits the standard 1-4 byte sequences; the decoder is
strict, as Python's is: stray continuation bytes, overlong encodings,
surrogates and out-of-range sequences are rejected. -/

namespace Utf8

/-- UTF-8 encoding of one scalar value. -/
def utf8EncodeChar (c : Char) : List Nat :=
  if c.toNat < 0x80 then [c.toNat]
  else if c.toNat < 0x800 then [0xC0 + c.toNat / 0x40, 0x80 + c.toNat % 0x40]
  else if c.toNat < 0x10000 then
    [0xE0 + c.toNat / 0x1000, 0x80 + (c.toNat / 0x40) % 0x40, 0x80 + c.toNat % 0x40]
  else
    [0xF0 + c.toNat / 0x40000, 0x80 + (c.toNat / 0x1000) % 0x40,
     0x80 + (c.toNat / 0x40) % 0x40, 0x80 + c.toNat % 0x40]

/-- `str.encode('utf-8')`. -/
def utf8Encode (s : PyStr) : PyBytes := s.flatMap utf8EncodeChar

/-- Is `b` a UTF-8 continuation byte? -/
def IsCont (b : Nat) : Prop := 0x80 ≤ b ∧ b < 0xC0

instance : DecidablePred IsCont := fun b =>
  inferInstanceAs (Decidable (0x80 ≤ b ∧ b < 0xC0))

/-- Decode a single scalar value from the head of a byte string, returning
it and the remaining bytes.  Rejects (with `none`) anything Python's
strict UTF-8 decoder rejects: stray continuation bytes, overlong forms
(`0xC0`/`0xC1` leads, small values after long leads), surrogates and
values above `0x10FFFF`. -/
def decodeOne : PyBytes → Option (Char × PyBytes)
  | [] => none
  | b :: rest =>
    if b < 0x80 then some (Char.ofNat b, rest)
    else if b < 0xC2 then none
    else if b < 0xE0 then
      match rest with
      | b1 :: r =>
        if IsCont b1 then some (Char.ofNat ((b - 0xC0) * 0x40 + (b1 - 0x80)), r)
        else none
      | [] => none
    else if b < 0xF0 then
      match rest with
      | b1 :: b2 :: r =>
        if IsCont b1 ∧ IsCont b2 ∧ ¬(b = 0xE0 ∧ b1 < 0xA0) ∧
            ¬(b = 0xED ∧ 0xA0 ≤ b1) then
          some (Char.ofNat ((b - 0xE0) * 0x1000 + (b1 - 0x80) * 0x40 + (b2 - 0x80)), r)
        else none
      | _ => none
    else if b < 0xF5 then
      match rest with
      | b1 :: b2 :: b3 :: r =>
        if IsCont b1 ∧ IsCont b2 ∧ IsCont b3 ∧ ¬(b = 0xF0 ∧ b1 < 0x90) ∧
            ¬(b = 0xF4 ∧ 0x90 ≤ b1) then
          some (Char.ofNat ((b - 0xF0) * 0x40000 + (b1 - 0x80) * 0x1000 +
            (b2 - 0x80) * 0x40 + (b3 - 0x80)), r)
        else none
      | _ => none
    else none

set_option maxRecDepth 4096 in
theorem decodeOne_length : ∀ {bs : PyBytes} {c : Char} {r : PyBytes},
    decodeOne bs = some (c, r) → r.length < bs.length := by
  intro bs c r h
  match bs with
  | [] => simp [decodeOne] at h
  | b :: rest =>
    simp only [decodeOne] at h
    split at h
    · cases h
      simp
    · split at h
      · cases h
      · split at h
        · split at h
          · split at h
            · cases h
              simp [List.length_cons]
              omega
            · cases h
          · cases h
        · split at h
          · split at h
            · split at h
              · cases h
                simp [List.length_cons]
                omega
              · cases h
            · cases h
          · split at h
            · split at h
              · split at h
                · cases h
                  simp [List.length_cons]
                  omega
                · cases h
              · cases h
            · cases h

/-- `bytes.decode('utf-8')` (strict, as in Python): repeatedly decode one
scalar value. -/
def utf8Decode (bs : PyBytes) : Option PyStr :=
  match hbs : bs with
  | [] => some []
  | _ :: _ =>
    match h : decodeOne bs with
    | none => none
    | some (c, r) => (utf8Decode r).map (c :: ·)
termination_by bs.length
decreasing_by
  exact hbs ▸ decodeOne_length h


theorem toNat_isValidChar (c : Char) : Nat.isValidChar c.toNat := c.valid

theorem toNat_lt_excl_surrogate (c : Char) :
    (c.toNat < 0xD800 ∨ 0xDFFF < c.toNat) ∧ c.toNat < 0x110000 := by
  rcases toNat_isValidChar c with h | ⟨h1, h2⟩
  · exact ⟨Or.inl h, by omega⟩
  · exact ⟨Or.inr h1, h2⟩

/-- Decoding one encoded scalar at the head of a byte string. -/
theorem decodeOne_encodeChar_append (c : Char) (bs : PyBytes) :
    decodeOne (utf8EncodeChar c ++ bs) = some (c, bs) := by
  obtain ⟨hsur, hub⟩ := toNat_lt_excl_surrogate c
  by_cases h1 : c.toNat < 0x80
  · have henc : utf8EncodeChar c = [c.toNat] := by
      rw [utf8EncodeChar, if_pos h1]
    rw [henc, List.cons_append, List.nil_append]
    simp [decodeOne, h1, Char.ofNat_toNat]
  · by_cases h2 : c.toNat < 0x800
    · have henc : utf8EncodeChar c =
          [0xC0 + c.toNat / 0x40, 0x80 + c.toNat % 0x40] := by
        rw [utf8EncodeChar, if_neg h1, if_pos h2]
      have e1 : ¬(0xC0 + c.toNat / 0x40 < 0x80) := by omega
      have e2 : ¬(0xC0 + c.toNat / 0x40 < 0xC2) := by omega
      have e3 : 0xC0 + c.toNat / 0x40 < 0xE0 := by omega
      have e4 : IsCont (0x80 + c.toNat % 0x40) := ⟨by omega, by omega⟩
      have e5 : (0xC0 + c.toNat / 0x40 - 0xC0) * 0x40 +
          (0x80 + c.toNat % 0x40 - 0x80) = c.toNat := by omega
      rw [henc, List.cons_append, List.cons_append, List.nil_append]
      simp only [decodeOne, e1, e2, e3, e4, if_false, if_true, ite_true,
        ite_false, if_neg, if_pos]
      simp [e1, e2, e3, e4, Char.ofNat_toNat]
      have harg : c.toNat / 64 * 64 + c.toNat % 64 = c.toNat := by omega
      rw [harg, Char.ofNat_toNat]
    · by_cases h3 : c.toNat < 0x10000
      · have henc : utf8EncodeChar c =
            [0xE0 + c.toNat / 0x1000, 0x80 + (c.toNat / 0x40) % 0x40,
             0x80 + c.toNat % 0x40] := by
          rw [utf8EncodeChar, if_neg h1, if_neg h2, if_pos h3]
        have e1 : ¬(0xE0 + c.toNat / 0x1000 < 0x80) := by omega
        have e2 : ¬(0xE0 + c.toNat / 0x1000 < 0xC2) := by omega
        have e3 : ¬(0xE0 + c.toNat / 0x1000 < 0xE0) := by omega
        have e4 : 0xE0 + c.toNat / 0x1000 < 0xF0 := by omega
        have e5 : IsCont (0x80 + (c.toNat / 0x40) % 0x40) ∧
            IsCont (0x80 + c.toNat % 0x40) ∧
            ¬(0xE0 + c.toNat / 0x1000 = 0xE0 ∧ 0x80 + (c.toNat / 0x40) % 0x40 < 0xA0) ∧
            ¬(0xE0 + c.toNat / 0x1000 = 0xED ∧ 0xA0 ≤ 0x80 + (c.toNat / 0x40) % 0x40) := by
          refine ⟨⟨by omega, by omega⟩, ⟨by omega, by omega⟩, by omega, ?_⟩
          rcases hsur with h | h <;> omega
        have e6 : (0xE0 + c.toNat / 0x1000 - 0xE0) * 0x1000 +
            (0x80 + (c.toNat / 0x40) % 0x40 - 0x80) * 0x40 +
            (0x80 + c.toNat % 0x40 - 0x80) = c.toNat := by omega
        rw [henc, List.cons_append, List.cons_append, List.cons_append,
          List.nil_append]
        obtain ⟨f1, f2, f3, f4⟩ := e5
        simp [decodeOne, e1, e2, e3, e4, f1, f2, f3, f4, e6, Char.ofNat_toNat]
        refine ⟨by omega, ?_⟩
        have harg : c.toNat / 4096 * 4096 + c.toNat / 64 % 64 * 64 +
            c.toNat % 64 = c.toNat := by omega
        rw [harg, Char.ofNat_toNat]
      · have henc : utf8EncodeChar c =
            [0xF0 + c.toNat / 0x40000, 0x80 + (c.toNat / 0x1000) % 0x40,
             0x80 + (c.toNat / 0x40) % 0x40, 0x80 + c.toNat % 0x40] := by
          rw [utf8EncodeChar, if_neg h1, if_neg h2, if_neg h3]
        have e1 : ¬(0xF0 + c.toNat / 0x40000 < 0x80) := by omega
        have e2 : ¬(0xF0 + c.toNat / 0x40000 < 0xC2) := by omega
        have e3 : ¬(0xF0 + c.toNat / 0x40000 < 0xE0) := by omega
        have e4 : ¬(0xF0 + c.toNat / 0x40000 < 0xF0) := by omega
        have e5 : 0xF0 + c.toNat / 0x40000 < 0xF5 := by omega
        have e6 : IsCont (0x80 + (c.toNat / 0x1000) % 0x40) ∧
            IsCont (0x80 + (c.toNat / 0x40) % 0x40) ∧
            IsCont (0x80 + c.toNat % 0x40) ∧
            ¬(0xF0 + c.toNat / 0x40000 = 0xF0 ∧ 0x80 + (c.toNat / 0x1000) % 0x40 < 0x90) ∧
            ¬(0xF0 + c.toNat / 0x40000 = 0xF4 ∧ 0x90 ≤ 0x80 + (c.toNat / 0x1000) % 0x40) := by
          refine ⟨⟨by omega, by omega⟩, ⟨by omega, by omega⟩, ⟨by omega, by omega⟩,
            by omega, by omega⟩
        have e7 : (0xF0 + c.toNat / 0x40000 - 0xF0) * 0x40000 +
            (0x80 + (c.toNat / 0x1000) % 0x40 - 0x80) * 0x1000 +
            (0x80 + (c.toNat / 0x40) % 0x40 - 0x80) * 0x40 +
            (0x80 + c.toNat % 0x40 - 0x80) = c.toNat := by omega
        rw [henc, List.cons_append, List.cons_append, List.cons_append,
          List.cons_append, List.nil_append]
        obtain ⟨f1, f2, f3, f4, f5⟩ := e6
        simp [decodeOne, e1, e2, e3, e4, e5, f1, f2, f3, f4, f5, e7,
          Char.ofNat_toNat]
        refine ⟨by omega, ?_⟩
        have harg : c.toNat / 262144 * 262144 + c.toNat / 4096 % 64 * 4096 +
            c.toNat / 64 % 64 * 64 + c.toNat % 64 = c.toNat := by omega
        rw [harg, Char.ofNat_toNat]

theorem utf8Decode_nil : utf8Decode [] = some [] := by
  rw [utf8Decode]

theorem utf8Decode_cons {b : Nat} {rest r : PyBytes} {c : Char}
    (h : decodeOne (b :: rest) = some (c, r)) :
    utf8Decode (b :: rest) = (utf8Decode r).map (c :: ·) := by
  rw [utf8Decode]
  split
  · rw [h] at *
    rename_i heq
    cases heq
  · rename_i c' r' heq
    rw [h] at heq
    cases heq
    rfl

/-- UTF-8 round trip: Python's `s.encode('utf-8').decode('utf-8') == s`. -/
theorem utf8Decode_utf8Encode_append (s : PyStr) (bs : PyBytes) :
    utf8Decode (utf8Encode s ++ bs) = (utf8Decode bs).map (s ++ ·) := by
  induction s with
  | nil =>
    cases h : utf8Decode bs <;> simp [utf8Encode, h]
  | cons c cs ih =>
    have hstep := decodeOne_encodeChar_append c (utf8Encode cs ++ bs)
    have hne : utf8EncodeChar c ++ (utf8Encode cs ++ bs) ≠ [] := by
      intro hcontra
      rw [hcontra] at hstep
      simp [decodeOne] at hstep
    rw [utf8Encode, List.flatMap_cons, ← utf8Encode, List.append_assoc]
    match hm : utf8EncodeChar c ++ (utf8Encode cs ++ bs), hne with
    | b :: rest, _ =>
      rw [utf8Decode_cons (hm ▸ hstep), ih]
      cases utf8Decode bs <;> rfl

theorem utf8Decode_utf8Encode (s : PyStr) : utf8Decode (utf8Encode s) = some s := by
  have h := utf8Decode_utf8Encode_append s []
  rw [List.append_nil] at h
  rw [h, utf8Decode_nil]
  simp

end Utf8


/-! ## Base64

`base64.b64encode` / `base64.b64decode` (standard alphabet, `=` padding)
as used by the V1 caveat format.  `b64decode` is modelled on well-formed
padded input - the image of `b64encode` - which is the only thing the
round-trip and dispatch theorems need. -/

namespace B64

/-- The standard base64 alphabet, as ASCII codes. -/
def b64Char (i : Nat) : Nat :=
  if i < 26 then 65 + i
  else if i < 52 then 97 + (i - 26)
  else if i < 62 then 48 + (i - 52)
  else if i = 62 then 43
  else 47

/-- Inverse of the alphabet; `none` off the alphabet. -/
def b64Index (c : Nat) : Option Nat :=
  if 65 ≤ c ∧ c ≤ 90 then some (c - 65)
  else if 97 ≤ c ∧ c ≤ 122 then some (26 + (c - 97))
  else if 48 ≤ c ∧ c ≤ 57 then some (52 + (c - 48))
  else if c = 43 then some 62
  else if c = 47 then some 63
  else none

theorem b64Index_b64Char : ∀ i, i < 64 → b64Index (b64Char i) = some i := by
  decide

theorem b64Char_ne_61 : ∀ i, i < 64 → b64Char i ≠ 61 := by decide

theorem b64Char_lt_128 : ∀ i, i < 64 → b64Char i < 128 := by decide

/-- `base64.b64encode`. -/
def b64encode : PyBytes → PyBytes
  | [] => []
  | [b0] => [b64Char (b0 / 4), b64Char (b0 % 4 * 16), 61, 61]
  | [b0, b1] => [b64Char (b0 / 4), b64Char (b0 % 4 * 16 + b1 / 16),
      b64Char (b1 % 16 * 4), 61]
  | b0 :: b1 :: b2 :: rest =>
      b64Char (b0 / 4) :: b64Char (b0 % 4 * 16 + b1 / 16) ::
      b64Char (b1 % 16 * 4 + b2 / 64) :: b64Char (b2 % 64) :: b64encode rest

/-- `base64.b64decode` on well-formed padded input. -/
def b64decode : PyBytes → Option PyBytes
  | [] => some []
  | c0 :: c1 :: c2 :: c3 :: rest =>
    match b64Index c0, b64Index c1 with
    | some i0, some i1 =>
      if c2 = 61 ∧ c3 = 61 ∧ rest = [] then
        some [i0 * 4 + i1 / 16]
      else if c3 = 61 ∧ rest = [] then
        match b64Index c2 with
        | some i2 => some [i0 * 4 + i1 / 16, i1 % 16 * 16 + i2 / 4]
        | none => none
      else
        match b64Index c2, b64Index c3 with
        | some i2, some i3 =>
            (b64decode rest).map (fun tl =>
              (i0 * 4 + i1 / 16) :: (i1 % 16 * 16 + i2 / 4) :: (i2 % 4 * 64 + i3) :: tl)
        | _, _ => none
    | _, _ => none
  | _ => none

/-- The base64 round trip on byte strings. -/
theorem b64decode_b64encode : ∀ (bs : PyBytes), IsBytes bs →
    b64decode (b64encode bs) = some bs
  | [], _ => rfl
  | [b0], h => by
    have hb0 : b0 < 256 := h b0 (by simp)
    have h0 : b0 / 4 < 64 := by omega
    have h1 : b0 % 4 * 16 < 64 := by omega
    rw [b64encode, b64decode, b64Index_b64Char _ h0, b64Index_b64Char _ h1]
    simp
    omega
  | [b0, b1], h => by
    have hb0 : b0 < 256 := h b0 (by simp)
    have hb1 : b1 < 256 := h b1 (by simp)
    have h0 : b0 / 4 < 64 := by omega
    have h1 : b0 % 4 * 16 + b1 / 16 < 64 := by omega
    have h2 : b1 % 16 * 4 < 64 := by omega
    have hc2 := b64Char_ne_61 _ h2
    rw [b64encode, b64decode, b64Index_b64Char _ h0, b64Index_b64Char _ h1,
      b64Index_b64Char _ h2]
    simp [hc2]
    omega
  | b0 :: b1 :: b2 :: rest, h => by
    have hb0 : b0 < 256 := h b0 (by simp)
    have hb1 : b1 < 256 := h b1 (by simp)
    have hb2 : b2 < 256 := h b2 (by simp)
    have hrest : IsBytes rest := by
      intro b hb
      exact h b (by simp [hb])
    have h0 : b0 / 4 < 64 := by omega
    have h1 : b0 % 4 * 16 + b1 / 16 < 64 := by omega
    have h2 : b1 % 16 * 4 + b2 / 64 < 64 := by omega
    have h3 : b2 % 64 < 64 := by omega
    have hc2 := b64Char_ne_61 _ h2
    have hc3 := b64Char_ne_61 _ h3
    have henc : b64encode (b0 :: b1 :: b2 :: rest) =
        b64Char (b0 / 4) :: b64Char (b0 % 4 * 16 + b1 / 16) ::
        b64Char (b1 % 16 * 4 + b2 / 64) :: b64Char (b2 % 64) ::
        b64encode rest := rfl
    have hrec : b64decode (b64encode rest) = some rest :=
      b64decode_b64encode rest hrest
    rw [henc]
    rw [b64decode]
    rw [b64Index_b64Char _ h0]
    rw [b64Index_b64Char _ h1]
    rw [b64Index_b64Char _ h2]
    rw [b64Index_b64Char _ h3]
    rw [hrec]
    simp [hc2, hc3]
    omega

theorem b64Char_lt_128' (i : Nat) : b64Char i < 128 := by
  unfold b64Char
  split <;> [omega; split <;> [omega; split <;> [omega; split <;> omega]]]

/-- Base64 output is ASCII. -/
theorem b64encode_lt_128 : ∀ (bs : PyBytes), ∀ b ∈ b64encode bs, b < 128
  | [], _, h => by simp [b64encode] at h
  | [b0], b, h => by
    simp only [b64encode, List.mem_cons, List.not_mem_nil, or_false] at h
    rcases h with h | h | h | h <;> subst h <;>
      first
      | exact b64Char_lt_128' _
      | omega
  | [b0, b1], b, h => by
    simp only [b64encode, List.mem_cons, List.not_mem_nil, or_false] at h
    rcases h with h | h | h | h <;> subst h <;>
      first
      | exact b64Char_lt_128' _
      | omega
  | b0 :: b1 :: b2 :: rest, b, h => by
    have hrec := b64encode_lt_128 rest
    have henc : b64encode (b0 :: b1 :: b2 :: rest) =
        b64Char (b0 / 4) :: b64Char (b0 % 4 * 16 + b1 / 16) ::
        b64Char (b1 % 16 * 4 + b2 / 64) :: b64Char (b2 % 64) ::
        b64encode rest := rfl
    rw [henc] at h
    simp only [List.mem_cons] at h
    rcases h with h | h | h | h | h
    · subst h; exact b64Char_lt_128' _
    · subst h; exact b64Char_lt_128' _
    · subst h; exact b64Char_lt_128' _
    · subst h; exact b64Char_lt_128' _
    · exact hrec b h

end B64

/-! ## Python exceptions

A structured model of the distinct exception sites in the embedded code.
Formatted message payloads are dropped or kept as fixed text; the
constructor (and fixed text) identifies the `raise` site. -/

inductive PyErr where
  /-- `KeyError` (dict lookup / `Namespace.register` invalid URI). -/
  | keyError (msg : PyStr)
  /-- `ValueError` with a fixed message text. -/
  | valueError (msg : PyStr)
  /-- `ValueError` raised by unpacking `kv.split(':')` into `k, v`. -/
  | unpackError
  /-- `UnicodeDecodeError` from strict `bytes.decode`. -/
  | unicodeDecodeError
  /-- `nacl` box open failure (wrong key or corrupted ciphertext). -/
  | cryptoError
  /-- `NotImplementedError`. -/
  | notImplementedError (msg : PyStr)
  /-- Python `AttributeError`: attribute lookup failed on an object. -/
  | attributeError (attr : PyStr)
  /-- `macaroonbakery` `VerificationError` with its message. -/
  | verificationError (msg : PyStr)
  /-- `macaroonbakery` `CaveatNotRecognizedError`. -/
  | caveatNotRecognized
  /-- `httpbakery` `BakeryException` with its message. -/
  | bakeryException (msg : PyStr)
  /-- Bare Python `Exception` (as raised by `_decode_caveat_v1`). -/
  | exception (msg : PyStr)
  /-- Python `TypeError` (e.g. `b64decode(None)`). -/
  | typeError (msg : PyStr)
deriving DecidableEq, Repr

/-! ## Namespace (`namespace.py`)

`Namespace._uri_to_prefix` is a Python dict: an insertion-ordered map,
modelled as an association list whose keys are unique (maintained by
`register` / `dictSet`). -/

namespace NS

/-- An insertion-ordered string-to-string dict. -/
abbrev Dict := List (PyStr × PyStr)

/-- `dict.get(k)`. -/
def dictGet (d : Dict) (k : PyStr) : Option PyStr :=
  match d with
  | [] => none
  | (k', v) :: rest => if k' = k then some v else dictGet rest k

/-- `d[k] = v`: overwrite in place if present (keeping insertion position),
else append. -/
def dictSet (d : Dict) (k v : PyStr) : Dict :=
  match d with
  | [] => [(k, v)]
  | (k', v') :: rest =>
    if k' = k then (k', v) :: rest else (k', v') :: dictSet rest k v

/-- The keys of the dict are pairwise distinct. -/
def NodupKeys (d : Dict) : Prop := (d.map Prod.fst).Nodup

/-- `Namespace`: wraps `_uri_to_prefix`. -/
structure PyNamespace where
  entries : Dict
deriving DecidableEq, Repr

/-- `is_valid_schema_uri` from `namespace.py`: non-empty, no space. -/
def is_valid_schema_uri (uri : PyStr) : Bool :=
  decide (0 < uri.length) && !(uri.contains ' ')

/-- `is_valid_prefix` from `namespace.py`: no space, no colon. -/
def is_valid_prefix (pfx : PyStr) : Bool :=
  !(pfx.contains ' ') && !(pfx.contains ':')

/-- `Namespace.register`: validate, then insert only if the URI is absent. -/
def register (ns : PyNamespace) (uri pfx : PyStr) : Except PyErr PyNamespace :=
  if ¬is_valid_schema_uri uri then
    .error (.keyError ("cannot register invalid URI".data))
  else if ¬ is_valid_prefix pfx then
    .error (.valueError ("cannot register invalid prefix".data))
  else if (dictGet ns.entries uri).isNone then
    .ok ⟨ns.entries ++ [(uri, pfx)]⟩
  else .ok ns

/-- `Namespace.__init__(uri_to_prefix)`: register every entry of the given
dict, in insertion order. -/
def namespaceInit (d : Dict) : Except PyErr PyNamespace :=
  d.foldlM (fun ns e => register ns e.1 e.2) ⟨[]⟩

/-- `Namespace.resolve`. -/
def resolve (ns : PyNamespace) (uri : PyStr) : Option PyStr :=
  dictGet ns.entries uri

/-- The ordering used by Python's `sorted()` on `dict.items()`: pairs of
strings, compared lexicographically. -/
def pairLe (a b : PyStr × PyStr) : Bool :=
  decide (a.1 < b.1 ∨ (a.1 = b.1 ∧ a.2 ≤ b.2))

/-- `Namespace.serialize` (string contents): entries sorted by URI, each
`uri:prefix`, space-separated; empty namespace gives the empty string. -/
def serializeStr (ns : PyNamespace) : PyStr :=
  if ns.entries.length = 0 then []
  else List.intercalate [' ']
    ((ns.entries.mergeSort pairLe).map (fun e => e.1 ++ ':' :: e.2))

/-- `Namespace.serialize` (the `bytes` result, via `six.b`). -/
def serialize (ns : PyNamespace) : PyBytes := Utf8.utf8Encode (serializeStr ns)

/-- Python `str.split(sep)` with an explicit one-character separator:
splits at every occurrence, keeping empty parts. -/
def splitOnChar (sep : Char) : PyStr → List PyStr
  | [] => [[]]
  | c :: rest =>
    let r := splitOnChar sep rest
    if c = sep then [] :: r
    else
      match r with
      | p :: ps => (c :: p) :: ps
      | [] => [[c]]

/-- `deserialize_namespace` from `namespace.py`: decode the bytes, split
on spaces, split each field on `:` into exactly two parts (a `ValueError`
otherwise, as when unpacking fails in Python), build the dict, and
construct a `Namespace` from it. -/
def deserialize_namespace (data : PyBytes) : Except PyErr PyNamespace := do
  let s ← match Utf8.utf8Decode data with
    | none => Except.error PyErr.unicodeDecodeError
    | some s => Except.ok s
  let kvs := splitOnChar ' ' s
  let pairs ← kvs.mapM (fun kv =>
    match splitOnChar ':' kv with
    | [k, v] => Except.ok (k, v)
    | _ => Except.error PyErr.unpackError)
  namespaceInit (pairs.foldl (fun d e => dictSet d e.1 e.2) [])

/-- `Namespace.__eq__`: Python dict equality (same keys, same values,
order-independent). -/
def dictEqv (a b : Dict) : Bool :=
  a.all (fun e => dictGet b e.1 == some e.2) &&
  b.all (fun e => dictGet a e.1 == some e.2)

/-- `Namespace.__eq__` from `namespace.py`. -/
def nsEq (x y : PyNamespace) : Bool := dictEqv x.entries y.entries


theorem dictGet_eq_none_of_not_mem {d : Dict} {k : PyStr}
    (h : k ∉ d.map Prod.fst) : dictGet d k = none := by
  induction d with
  | nil => rfl
  | cons e rest ih =>
    simp only [List.map_cons, List.mem_cons] at h
    push_neg at h
    have hne : ¬e.1 = k := fun he => h.1 he.symm
    rw [dictGet, if_neg hne, ih h.2]

theorem dictGet_of_mem : ∀ {d : Dict} {k v : PyStr}, NodupKeys d →
    (k, v) ∈ d → dictGet d k = some v := by
  intro d
  induction d with
  | nil => intro k v _ h; simp at h
  | cons e rest ih =>
    intro k v hnd hmem
    rw [NodupKeys, List.map_cons, List.nodup_cons] at hnd
    rcases List.mem_cons.mp hmem with h | h
    · rw [← h, dictGet, if_pos rfl]
    · have hne : e.1 ≠ k := by
        intro he
        exact hnd.1 (he ▸ List.mem_map_of_mem Prod.fst h)
      rw [dictGet, if_neg hne]
      exact ih hnd.2 h

theorem mem_of_dictGet : ∀ {d : Dict} {k v : PyStr},
    dictGet d k = some v → (k, v) ∈ d := by
  intro d
  induction d with
  | nil => intro k v h; simp [dictGet] at h
  | cons e rest ih =>
    intro k v h
    rw [dictGet] at h
    by_cases he : e.1 = k
    · rw [if_pos he] at h
      cases h
      subst he
      simp
    · rw [if_neg he] at h
      exact List.mem_cons_of_mem _ (ih h)

theorem nodup_of_nodupKeys {d : Dict} (h : NodupKeys d) : d.Nodup :=
  List.Nodup.of_map Prod.fst h

theorem splitOnChar_ne_nil (sep : Char) (s : PyStr) : splitOnChar sep s ≠ [] := by
  cases s with
  | nil => simp [splitOnChar]
  | cons c rest =>
    rw [splitOnChar]
    by_cases h : c = sep
    · simp [h]
    · simp only [if_neg h]
      cases splitOnChar sep rest <;> simp

theorem splitOnChar_sepFree {sep : Char} : ∀ {s : PyStr},
    ¬(s.contains sep = true) → splitOnChar sep s = [s] := by
  intro s
  induction s with
  | nil => intro _; rfl
  | cons c rest ih =>
    intro h
    simp only [List.contains_cons, Bool.or_eq_true, beq_iff_eq] at h
    push_neg at h
    have hcs : ¬c = sep := fun he => h.1 he.symm
    rw [splitOnChar, if_neg hcs, ih (by simpa using h.2)]

theorem splitOnChar_append_free {sep : Char} : ∀ {xs rest : PyStr} {p : PyStr}
    {ps : List PyStr}, ¬(xs.contains sep = true) →
    splitOnChar sep rest = p :: ps →
    splitOnChar sep (xs ++ rest) = (xs ++ p) :: ps := by
  intro xs
  induction xs with
  | nil => intro rest p ps _ h; simpa using h
  | cons c xs' ih =>
    intro rest p ps hfree h
    simp only [List.contains_cons, Bool.or_eq_true, beq_iff_eq] at hfree
    push_neg at hfree
    have hcs : ¬c = sep := fun he => hfree.1 he.symm
    rw [List.cons_append, splitOnChar, if_neg hcs,
      ih (by simpa using hfree.2) h]
    rfl

theorem splitOnChar_intercalate {sep : Char} : ∀ (parts : List PyStr),
    parts ≠ [] → (∀ p ∈ parts, ¬(p.contains sep = true)) →
    splitOnChar sep (List.intercalate [sep] parts) = parts := by
  intro parts
  induction parts with
  | nil => intro h _; exact absurd rfl h
  | cons p rest ih =>
    intro _ hfree
    cases rest with
    | nil =>
      rw [List.intercalate, List.intersperse_singleton, List.flatten,
        List.flatten, List.append_nil]
      exact splitOnChar_sepFree (hfree p (by simp))
    | cons q rest' =>
      have hinter : List.intercalate [sep] (p :: q :: rest') =
          p ++ sep :: List.intercalate [sep] (q :: rest') := by
        rw [List.intercalate, List.intercalate, List.intersperse]
        simp
        exact List.cons_ne_nil q rest'
      rw [hinter]
      have hrec : splitOnChar sep (List.intercalate [sep] (q :: rest')) =
          q :: rest' :=
        ih (List.cons_ne_nil q rest') (fun x hx => hfree x (List.mem_cons_of_mem p hx))
      have hsep : splitOnChar sep (sep :: List.intercalate [sep] (q :: rest')) =
          [] :: q :: rest' := by
        rw [splitOnChar, if_pos rfl, hrec]
      have := splitOnChar_append_free (hfree p (by simp)) hsep
      rw [this, List.append_nil]


theorem pairLe_trans (a b c : PyStr × PyStr) :
    pairLe a b → pairLe b c → pairLe a c := by
  simp only [pairLe, decide_eq_true_eq]
  rintro (h1 | ⟨h1, h1'⟩) (h2 | ⟨h2, h2'⟩)
  · exact Or.inl (lt_trans h1 h2)
  · exact Or.inl (h2 ▸ h1)
  · exact Or.inl (h1 ▸ h2)
  · exact Or.inr ⟨h1.trans h2, le_trans h1' h2'⟩

theorem pairLe_total (a b : PyStr × PyStr) : pairLe a b || pairLe b a := by
  simp only [pairLe, Bool.or_eq_true, decide_eq_true_eq]
  rcases lt_trichotomy a.1 b.1 with h | h | h
  · exact Or.inl (Or.inl h)
  · rcases le_total a.2 b.2 with h2 | h2
    · exact Or.inl (Or.inr ⟨h, h2⟩)
    · exact Or.inr (Or.inr ⟨h.symm, h2⟩)
  · exact Or.inr (Or.inl h)

theorem pairLe_antisymm {a b : PyStr × PyStr} (h1 : pairLe a b = true)
    (h2 : pairLe b a = true) : a = b := by
  simp only [pairLe, decide_eq_true_eq] at h1 h2
  rcases h1 with h1 | ⟨h1, h1'⟩ <;> rcases h2 with h2 | ⟨h2, h2'⟩
  · exact absurd h2 (lt_asymm h1)
  · exact absurd (h2 ▸ h1) (lt_irrefl _)
  · exact absurd (h1 ▸ h2) (lt_irrefl _)
  · exact Prod.ext h1 (le_antisymm h1' h2')

instance : IsAntisymm (PyStr × PyStr) (fun a b => pairLe a b = true) :=
  ⟨fun _ _ => pairLe_antisymm⟩

/-- `d[k] = v` just appends when the key is absent. -/
theorem dictSet_absent : ∀ {d : Dict} {k v : PyStr}, k ∉ d.map Prod.fst →
    dictSet d k v = d ++ [(k, v)] := by
  intro d
  induction d with
  | nil => intro k v _; rfl
  | cons e rest ih =>
    intro k v h
    simp only [List.map_cons, List.mem_cons] at h
    push_neg at h
    have hne : ¬e.1 = k := fun he => h.1 he.symm
    rw [dictSet, if_neg hne, ih h.2, List.cons_append]

/-- Building a dict from distinct-keyed pairs reproduces the pairs. -/
theorem foldl_dictSet (es : Dict) (hnd : NodupKeys es) :
    es.foldl (fun d e => dictSet d e.1 e.2) [] = es := by
  suffices h : ∀ (acc : Dict), NodupKeys (acc ++ es) →
      es.foldl (fun d e => dictSet d e.1 e.2) acc = acc ++ es by
    simpa using h [] (by simpa using hnd)
  clear hnd
  induction es with
  | nil => intro acc _; simp
  | cons e rest ih =>
    intro acc hnd
    have hknotin : e.1 ∉ acc.map Prod.fst := by
      intro hmem
      rw [NodupKeys, List.map_append] at hnd
      have := (List.nodup_append.mp hnd).2.2
      exact this hmem (by simp)
    rw [List.foldl_cons, dictSet_absent hknotin, ih]
    · simp
    · rw [NodupKeys] at hnd ⊢
      simpa using hnd

/-- `Namespace.__init__` on a valid, distinct-keyed dict registers every
entry unchanged. -/
theorem namespaceInit_valid (es : Dict)
    (hvalid : ∀ e ∈ es, is_valid_schema_uri e.1 ∧ is_valid_prefix e.2)
    (hnd : NodupKeys es) :
    namespaceInit es = .ok ⟨es⟩ := by
  suffices h : ∀ (acc : Dict), NodupKeys (acc ++ es) →
      es.foldlM (fun ns e => register ns e.1 e.2) (⟨acc⟩ : PyNamespace) =
        .ok ⟨acc ++ es⟩ by
    rw [namespaceInit]
    simpa using h [] (by simpa using hnd)
  clear hnd
  induction es with
  | nil =>
    intro acc _
    rw [List.foldlM_nil, List.append_nil]
    rfl
  | cons e rest ih =>
    intro acc hnd
    have hknotin : e.1 ∉ acc.map Prod.fst := by
      intro hmem
      rw [NodupKeys, List.map_append] at hnd
      have := (List.nodup_append.mp hnd).2.2
      exact this hmem (by simp)
    have hv := hvalid e (by simp)
    have hreg : register ⟨acc⟩ e.1 e.2 = .ok ⟨acc ++ [(e.1, e.2)]⟩ := by
      rw [register, if_neg (by simp [hv.1]), if_neg (by simp [hv.2]),
        if_pos (by simp [dictGet_eq_none_of_not_mem hknotin])]
    rw [List.foldlM_cons, hreg]
    have := ih (fun x hx => hvalid x (List.mem_cons_of_mem e hx))
      (acc ++ [(e.1, e.2)])
      (by rw [NodupKeys] at hnd ⊢; simpa using hnd)
    simp only [List.append_assoc, List.singleton_append] at this
    simpa using this


/-- Splitting a rendered `uri:prefix` entry recovers the pair. -/
theorem splitOnChar_render {u p : PyStr} (hu : ¬(u.contains ':' = true))
    (hp : ¬(p.contains ':' = true)) :
    splitOnChar ':' (u ++ ':' :: p) = [u, p] := by
  have hsep : splitOnChar ':' (':' :: p) = [] :: [p] := by
    rw [splitOnChar, if_pos rfl, splitOnChar_sepFree hp]
  have := splitOnChar_append_free hu hsep
  rw [this, List.append_nil]

theorem mapM_split_pairs : ∀ (es : Dict),
    (∀ e ∈ es, ¬(e.1.contains ':' = true) ∧ ¬(e.2.contains ':' = true)) →
    (es.map (fun e => e.1 ++ ':' :: e.2)).mapM (fun kv =>
      match splitOnChar ':' kv with
      | [k, v] => Except.ok (k, v)
      | _ => Except.error PyErr.unpackError) = Except.ok es := by
  intro es
  induction es with
  | nil => intro _; rfl
  | cons e rest ih =>
    intro h
    have he := h e (by simp)
    rw [List.map_cons, List.mapM_cons, splitOnChar_render he.1 he.2]
    rw [ih (fun x hx => h x (List.mem_cons_of_mem e hx))]
    rfl

/-- A rendered entry contains no space when its fields don't. -/
theorem render_space_free {u p : PyStr} (hu : ¬(u.contains ' ' = true))
    (hp : ¬(p.contains ' ' = true)) :
    ¬((u ++ ':' :: p).contains ' ' = true) := by
  intro hcontra
  rw [List.contains_eq_any_beq, List.any_append] at hcontra
  rcases Bool.or_eq_true_iff.mp hcontra with h | h
  · exact hu (by rw [List.contains_eq_any_beq]; exact h)
  · rw [List.any_cons] at h
    rcases Bool.or_eq_true_iff.mp h with h | h
    · simp at h
    · exact hp (by rw [List.contains_eq_any_beq]; exact h)

/-- `serialize` emits the entries sorted (by Python's pair order, i.e. by
URI since keys are unique), space-separated, `uri:prefix` each. -/
theorem serializeStr_sorted (ns : PyNamespace) :
    ∃ es : Dict, es.Perm ns.entries ∧
      es.Pairwise (fun a b => pairLe a b = true) ∧
      serializeStr ns = List.intercalate [' ']
        (es.map (fun e => e.1 ++ ':' :: e.2)) := by
  refine ⟨ns.entries.mergeSort pairLe, List.mergeSort_perm _ _,
    @List.sorted_mergeSort _ pairLe (fun a b c => pairLe_trans a b c)
      pairLe_total _, ?_⟩
  rw [serializeStr]
  by_cases h : ns.entries.length = 0
  · rw [if_pos h]
    have : ns.entries = [] := List.eq_nil_of_length_eq_zero h
    rw [this]
    simp [List.intercalate]
  · rw [if_neg h]

/-- Two namespaces that are `==` in Python have permutation-equivalent
entry lists (assuming unique keys, an invariant of `register`). -/
theorem perm_of_nsEq {a b : PyNamespace} (hnda : NodupKeys a.entries)
    (hndb : NodupKeys b.entries) (h : nsEq a b = true) :
    a.entries.Perm b.entries := by
  rw [nsEq, dictEqv, Bool.and_eq_true, List.all_eq_true, List.all_eq_true] at h
  apply (List.perm_ext_iff_of_nodup (nodup_of_nodupKeys hnda)
    (nodup_of_nodupKeys hndb)).mpr
  intro e
  constructor
  · intro hmem
    have := h.1 e hmem
    rw [beq_iff_eq] at this
    exact mem_of_dictGet this
  · intro hmem
    have := h.2 e hmem
    rw [beq_iff_eq] at this
    exact mem_of_dictGet this

/-- Serialization is deterministic: Python-equal namespaces with unique
keys serialize to the same bytes. -/
theorem serialize_deterministic {a b : PyNamespace} (hnda : NodupKeys a.entries)
    (hndb : NodupKeys b.entries) (h : nsEq a b = true) :
    serialize a = serialize b := by
  have hperm : a.entries.Perm b.entries := perm_of_nsEq hnda hndb h
  have hsorted : a.entries.mergeSort pairLe = b.entries.mergeSort pairLe := by
    apply @List.eq_of_perm_of_sorted _ (fun x y => pairLe x y = true) _ _ _
    · exact ((List.mergeSort_perm a.entries pairLe).trans hperm).trans
        (List.mergeSort_perm b.entries pairLe).symm
    · exact @List.sorted_mergeSort _ pairLe
        (fun x y z => pairLe_trans x y z) pairLe_total _
    · exact @List.sorted_mergeSort _ pairLe
        (fun x y z => pairLe_trans x y z) pairLe_total _
  rw [serialize, serialize, serializeStr, serializeStr, hsorted,
    hperm.length_eq]


/-- Entry-wise validity, as established by `register` for every entry of a
`Namespace` (URIs non-empty and space-free, prefixes space- and
colon-free). -/
def ValidEntries (d : Dict) : Prop :=
  ∀ e ∈ d, is_valid_schema_uri e.1 = true ∧ is_valid_prefix e.2 = true

instance : DecidablePred ValidEntries := fun d =>
  inferInstanceAs (Decidable (∀ e ∈ d, _ ∧ _))

/-- The namespace round trip on the nose: for a non-empty namespace with
unique, colon-free URIs and valid entries,
`deserialize_namespace(serialize(ns))` succeeds and is Python-`==` to
`ns`.  (Shared helper used both by the claim about the namespace codec
and by the third-party caveat V3 round trip.) -/
theorem deserialize_serialize (ns : PyNamespace)
    (hval : ValidEntries ns.entries)
    (hcolon : ∀ e ∈ ns.entries, ¬(e.1.contains ':' = true))
    (hnd : NodupKeys ns.entries) (hne : ns.entries ≠ []) :
    ∃ ns', deserialize_namespace (serialize ns) = .ok ns' ∧
      nsEq ns' ns = true ∧ ns'.entries.Perm ns.entries := by
  set es := ns.entries.mergeSort pairLe with hes
  have hperm : es.Perm ns.entries := List.mergeSort_perm _ _
  have hvalid' : ∀ e ∈ es, is_valid_schema_uri e.1 = true ∧
      is_valid_prefix e.2 = true := fun e he => hval e (hperm.mem_iff.mp he)
  have hcolon' : ∀ e ∈ es, ¬(e.1.contains ':' = true) :=
    fun e he => hcolon e (hperm.mem_iff.mp he)
  have hnd' : NodupKeys es := by
    rw [NodupKeys]
    exact (hperm.map Prod.fst).nodup_iff.mpr hnd
  have hlen : ¬(ns.entries.length = 0) := by
    intro h
    exact hne (List.eq_nil_of_length_eq_zero h)
  have hstr : serializeStr ns = List.intercalate [' ']
      (es.map (fun e => e.1 ++ ':' :: e.2)) := by
    rw [serializeStr, if_neg hlen]
  -- prefix of the pipeline: utf-8 decodes back to the string
  have hdecode : Utf8.utf8Decode (serialize ns) = some (serializeStr ns) :=
    Utf8.utf8Decode_utf8Encode _
  -- the string splits into the rendered entries
  have hne' : es.map (fun e => e.1 ++ ':' :: e.2) ≠ [] := by
    intro h
    have : es = [] := by simpa using h
    exact hne (hperm.symm.trans (this ▸ List.Perm.refl []) |>.eq_nil)
  have hfree : ∀ p ∈ es.map (fun e => e.1 ++ ':' :: e.2),
      ¬(p.contains ' ' = true) := by
    intro p hp
    rcases List.mem_map.mp hp with ⟨e, he, rfl⟩
    have hv := hvalid' e he
    have hu : ¬(e.1.contains ' ' = true) := by
      have := hv.1
      rw [is_valid_schema_uri, Bool.and_eq_true] at this
      simpa using this.2
    have hpfx : ¬(e.2.contains ' ' = true) := by
      have := hv.2
      rw [ is_valid_prefix, Bool.and_eq_true] at this
      simpa using this.1
    exact render_space_free hu hpfx
  have hsplit : splitOnChar ' ' (serializeStr ns) =
      es.map (fun e => e.1 ++ ':' :: e.2) := by
    rw [hstr]
    exact splitOnChar_intercalate _ hne' hfree
  -- each entry splits into its pair
  have hpairs := mapM_split_pairs es (fun e he => ⟨hcolon' e he, by
    have := (hvalid' e he).2
    rw [ is_valid_prefix, Bool.and_eq_true] at this
    simpa using this.2⟩)
  -- the dict build and init reproduce the entries
  have hfold := foldl_dictSet es hnd'
  have hinit := namespaceInit_valid es hvalid' hnd'
  refine ⟨⟨es⟩, ?_, ?_, hperm⟩
  · rw [deserialize_namespace, hdecode]
    simp only [bind, Except.bind, hsplit, hpairs, hfold, hinit]
  · rw [nsEq, dictEqv, Bool.and_eq_true, List.all_eq_true, List.all_eq_true]
    constructor
    · intro e he
      rw [beq_iff_eq]
      exact dictGet_of_mem hnd (hperm.mem_iff.mp he)
    · intro e he
      rw [beq_iff_eq]
      exact dictGet_of_mem hnd' (hperm.mem_iff.mpr he)

end NS


/-! ## JSON (flat string objects)

`json.dumps` / `json.loads` as used by the V1 caveat format, which only
ever (de)serializes flat objects mapping string keys to string values
(`{'ThirdPartyPublicKey': …, 'FirstPartyPublicKey': …, 'Nonce': …,
'Id': …}` and `{'RootKey': …, 'Condition': …}`).  The encoder reproduces
`json.dumps`'s default output byte for byte (`ensure_ascii=True`
escaping, `', '` and `': '` separators, insertion order); the parser
models `json.loads` on that grammar. -/

namespace Json

/-- Lowercase hex digit, as `json.dumps` emits in `\uXXXX`. -/
def hexDigit (n : Nat) : Char :=
  if n < 10 then Char.ofNat (48 + n) else Char.ofNat (87 + n)

/-- Four hex digits of a 16-bit value. -/
def hex4 (n : Nat) : PyStr :=
  [hexDigit (n / 4096 % 16), hexDigit (n / 256 % 16),
   hexDigit (n / 16 % 16), hexDigit (n % 16)]

/-- `json.dumps` escaping of one character with `ensure_ascii=True`:
two-character escapes for the JSON specials, printable ASCII verbatim,
`\uXXXX` for the rest (surrogate pairs above the BMP). -/
def jsonEscapeChar (c : Char) : PyStr :=
  if c = '"' then ['\\', '"']
  else if c = '\\' then ['\\', '\\']
  else if c = '\n' then ['\\', 'n']
  else if c = '\r' then ['\\', 'r']
  else if c = '\t' then ['\\', 't']
  else if c.toNat = 8 then ['\\', 'b']
  else if c.toNat = 12 then ['\\', 'f']
  else if 0x20 ≤ c.toNat ∧ c.toNat ≤ 0x7E then [c]
  else if c.toNat < 0x10000 then '\\' :: 'u' :: hex4 c.toNat
  else '\\' :: 'u' :: hex4 (0xD800 + (c.toNat - 0x10000) / 0x400) ++
       '\\' :: 'u' :: hex4 (0xDC00 + (c.toNat - 0x10000) % 0x400)

def jsonEscape (s : PyStr) : PyStr := s.flatMap jsonEscapeChar

/-- Hex digit value (both cases, as `json.loads` accepts). -/
def hexVal (c : Char) : Option Nat :=
  if 48 ≤ c.toNat ∧ c.toNat ≤ 57 then some (c.toNat - 48)
  else if 97 ≤ c.toNat ∧ c.toNat ≤ 102 then some (c.toNat - 87)
  else if 65 ≤ c.toNat ∧ c.toNat ≤ 70 then some (c.toNat - 55)
  else none

/-- Parse four hex digits. -/
def parseU : PyStr → Option (Nat × PyStr)
  | a :: b :: c :: d :: rest =>
    match hexVal a, hexVal b, hexVal c, hexVal d with
    | some va, some vb, some vc, some vd =>
        some (va * 4096 + vb * 256 + vc * 16 + vd, rest)
    | _, _, _, _ => none
  | _ => none

theorem parseU_length : ∀ {s : PyStr} {n : Nat} {r : PyStr},
    parseU s = some (n, r) → s.length = r.length + 4 := by
  intro s n r h
  match s with
  | [] | [_] | [_, _] | [_, _, _] => simp [parseU] at h
  | a :: b :: c :: d :: rest =>
    rw [parseU] at h
    split at h
    · cases h
      simp
    · cases h

theorem hexVal_hexDigit : ∀ k, k < 16 → hexVal (hexDigit k) = some k := by
  decide

theorem parseU_hex4 {n : Nat} (h : n < 0x10000) (rest : PyStr) :
    parseU (hex4 n ++ rest) = some (n, rest) := by
  have h1 : n / 4096 % 16 < 16 := by omega
  have h2 : n / 256 % 16 < 16 := by omega
  have h3 : n / 16 % 16 < 16 := by omega
  have h4 : n % 16 < 16 := by omega
  rw [hex4]
  simp only [List.cons_append, List.nil_append]
  rw [parseU, hexVal_hexDigit _ h1, hexVal_hexDigit _ h2,
    hexVal_hexDigit _ h3, hexVal_hexDigit _ h4]
  have harith : n / 4096 % 16 * 4096 + n / 256 % 16 * 256 + n / 16 % 16 * 16 +
      n % 16 = n := by omega
  simp [harith]

/-- Parse the low half of a `\uXXXX` surrogate pair and combine it with
the high half `n`. -/
def parsePair (n : Nat) (rest2 : PyStr) : Option (Nat × PyStr) :=
  match rest2 with
  | '\\' :: 'u' :: tail =>
    match parseU tail with
    | some (m, rest3) =>
      if 0xDC00 ≤ m ∧ m < 0xE000 then
        some ((n - 0xD800) * 0x400 + (m - 0xDC00) + 0x10000, rest3)
      else none
    | none => none
  | _ => none

theorem parsePair_length : ∀ {n : Nat} {s : PyStr} {v : Nat} {r : PyStr},
    parsePair n s = some (v, r) → s.length = r.length + 6 := by
  intro n s v r h
  unfold parsePair at h
  split at h
  · rename_i tail
    split at h
    · rename_i m rest3 hm
      split at h
      · cases h
        have := parseU_length hm
        simp only [List.length_cons]
        omega
      · cases h
    · cases h
  · cases h

/-- Parse a JSON string body (the input starts after the opening quote);
returns the decoded string and the remainder after the closing quote.
Surrogate pairs in `\uXXXX` escapes are combined; lone surrogates are
rejected (Lean `Char`, like well-formed JSON text, cannot carry them). -/
def parseJsonStringBody (s : PyStr) : Option (PyStr × PyStr) :=
  match s with
  | [] => none
  | c :: rest =>
    if c = '"' then some ([], rest)
    else if c = '\\' then
      match rest with
      | [] => none
      | e :: rest' =>
        if e = '"' then (parseJsonStringBody rest').map (fun p => ('"' :: p.1, p.2))
        else if e = '\\' then (parseJsonStringBody rest').map (fun p => ('\\' :: p.1, p.2))
        else if e = '/' then (parseJsonStringBody rest').map (fun p => ('/' :: p.1, p.2))
        else if e = 'n' then (parseJsonStringBody rest').map (fun p => ('\n' :: p.1, p.2))
        else if e = 'r' then (parseJsonStringBody rest').map (fun p => ('\r' :: p.1, p.2))
        else if e = 't' then (parseJsonStringBody rest').map (fun p => ('\t' :: p.1, p.2))
        else if e = 'b' then (parseJsonStringBody rest').map (fun p => (Char.ofNat 8 :: p.1, p.2))
        else if e = 'f' then (parseJsonStringBody rest').map (fun p => (Char.ofNat 12 :: p.1, p.2))
        else if e = 'u' then
          match hu : parseU rest' with
          | none => none
          | some (n, rest2) =>
            if 0xD800 ≤ n ∧ n < 0xDC00 then
              match hp : parsePair n rest2 with
              | none => none
              | some (v, rest3) =>
                (parseJsonStringBody rest3).map (fun p =>
                  (Char.ofNat v :: p.1, p.2))
            else if 0xDC00 ≤ n ∧ n < 0xE000 then none
            else (parseJsonStringBody rest2).map (fun p => (Char.ofNat n :: p.1, p.2))
        else none
    else if c.toNat < 0x20 then none
    else (parseJsonStringBody rest).map (fun p => (c :: p.1, p.2))
termination_by s.length
decreasing_by
  all_goals first
    | (simp <;> omega)
    | (have hl1 := parseU_length hu
       have hl2 := parsePair_length hp
       simp only [List.length_cons] at *
       omega)
    | (have hl1 := parseU_length hu
       simp only [List.length_cons] at *
       omega)


/-! Evaluation lemmas for `parseJsonStringBody`, one per grammar shape. -/

theorem pjs_quote (rest : PyStr) :
    parseJsonStringBody ('"' :: rest) = some ([], rest) := by
  rw [parseJsonStringBody.eq_def]
  simp

theorem pjs_plain {c : Char} (h1 : ¬c = '"') (h2 : ¬c = '\\')
    (h3 : ¬c.toNat < 0x20) (rest : PyStr) :
    parseJsonStringBody (c :: rest) =
      (parseJsonStringBody rest).map (fun p => (c :: p.1, p.2)) := by
  rw [parseJsonStringBody.eq_def]
  simp [h1, h2, h3]

theorem pjs_esc_quote (rest : PyStr) :
    parseJsonStringBody ('\\' :: '"' :: rest) =
      (parseJsonStringBody rest).map (fun p => ('"' :: p.1, p.2)) := by
  rw [parseJsonStringBody.eq_def]
  simp

theorem pjs_esc_backslash (rest : PyStr) :
    parseJsonStringBody ('\\' :: '\\' :: rest) =
      (parseJsonStringBody rest).map (fun p => ('\\' :: p.1, p.2)) := by
  rw [parseJsonStringBody.eq_def]
  simp

theorem pjs_esc_n (rest : PyStr) :
    parseJsonStringBody ('\\' :: 'n' :: rest) =
      (parseJsonStringBody rest).map (fun p => ('\n' :: p.1, p.2)) := by
  rw [parseJsonStringBody.eq_def]
  simp

theorem pjs_esc_r (rest : PyStr) :
    parseJsonStringBody ('\\' :: 'r' :: rest) =
      (parseJsonStringBody rest).map (fun p => ('\r' :: p.1, p.2)) := by
  rw [parseJsonStringBody.eq_def]
  simp

theorem pjs_esc_t (rest : PyStr) :
    parseJsonStringBody ('\\' :: 't' :: rest) =
      (parseJsonStringBody rest).map (fun p => ('\t' :: p.1, p.2)) := by
  rw [parseJsonStringBody.eq_def]
  simp

theorem pjs_esc_b (rest : PyStr) :
    parseJsonStringBody ('\\' :: 'b' :: rest) =
      (parseJsonStringBody rest).map (fun p => (Char.ofNat 8 :: p.1, p.2)) := by
  rw [parseJsonStringBody.eq_def]
  simp

theorem pjs_esc_f (rest : PyStr) :
    parseJsonStringBody ('\\' :: 'f' :: rest) =
      (parseJsonStringBody rest).map (fun p => (Char.ofNat 12 :: p.1, p.2)) := by
  rw [parseJsonStringBody.eq_def]
  simp

theorem pjs_u {rest' : PyStr} {n : Nat} {rest2 : PyStr}
    (hu : parseU rest' = some (n, rest2))
    (hn1 : ¬(0xD800 ≤ n ∧ n < 0xDC00)) (hn2 : ¬(0xDC00 ≤ n ∧ n < 0xE000)) :
    parseJsonStringBody ('\\' :: 'u' :: rest') =
      (parseJsonStringBody rest2).map (fun p => (Char.ofNat n :: p.1, p.2)) := by
  rw [parseJsonStringBody.eq_def]
  simp
  split
  · rename_i h
    rw [hu] at h
    cases h
  · rename_i nn rest2' h
    rw [hu] at h
    cases h
    rw [if_neg hn1, if_neg hn2]

theorem pjs_u_pair {rest' rest2 rest3 : PyStr} {n v : Nat}
    (hu : parseU rest' = some (n, rest2))
    (hn : 0xD800 ≤ n ∧ n < 0xDC00)
    (hp : parsePair n rest2 = some (v, rest3)) :
    parseJsonStringBody ('\\' :: 'u' :: rest') =
      (parseJsonStringBody rest3).map (fun p => (Char.ofNat v :: p.1, p.2)) := by
  rw [parseJsonStringBody.eq_def]
  simp
  split
  · rename_i h
    rw [hu] at h
    cases h
  · rename_i nn rest2' h
    rw [hu] at h
    cases h
    rw [if_pos hn]
    split
    · rename_i h2
      rw [hp] at h2
      cases h2
    · rename_i vv rest3' h2
      rw [hp] at h2
      cases h2
      rfl

theorem parsePair_eval {m : Nat} (hm : 0xDC00 ≤ m ∧ m < 0xE000) (n : Nat)
    (rest : PyStr) :
    parsePair n ('\\' :: 'u' :: (hex4 m ++ rest)) =
      some ((n - 0xD800) * 0x400 + (m - 0xDC00) + 0x10000, rest) := by
  have h := parseU_hex4 (show m < 0x10000 by omega) rest
  simp [parsePair, h, hm]


/-- The JSON string round trip: parsing an escaped string (with its
closing quote) recovers the string and the remainder. -/
theorem parseJsonStringBody_escape : ∀ (s rest : PyStr),
    parseJsonStringBody (jsonEscape s ++ '"' :: rest) = some (s, rest) := by
  intro s
  induction s with
  | nil =>
    intro rest
    rw [jsonEscape]
    simp only [List.flatMap_nil, List.nil_append]
    exact pjs_quote rest
  | cons c cs ih =>
    intro rest
    have hT : parseJsonStringBody (jsonEscape cs ++ '"' :: rest) =
        some (cs, rest) := ih rest
    rw [jsonEscape, List.flatMap_cons, ← jsonEscape, List.append_assoc]
    by_cases h1 : c = '"'
    · subst h1
      rw [show jsonEscapeChar '"' = ['\\', '"'] by rfl]
      simp only [List.cons_append, List.nil_append]
      rw [pjs_esc_quote, hT]
      rfl
    · by_cases h2 : c = '\\'
      · subst h2
        rw [show jsonEscapeChar '\\' = ['\\', '\\'] by rfl]
        simp only [List.cons_append, List.nil_append]
        rw [pjs_esc_backslash, hT]
        rfl
      · by_cases h3 : c = '\n'
        · subst h3
          rw [show jsonEscapeChar '\n' = ['\\', 'n'] by rfl]
          simp only [List.cons_append, List.nil_append]
          rw [pjs_esc_n, hT]
          rfl
        · by_cases h4 : c = '\r'
          · subst h4
            rw [show jsonEscapeChar '\r' = ['\\', 'r'] by rfl]
            simp only [List.cons_append, List.nil_append]
            rw [pjs_esc_r, hT]
            rfl
          · by_cases h5 : c = '\t'
            · subst h5
              rw [show jsonEscapeChar '\t' = ['\\', 't'] by rfl]
              simp only [List.cons_append, List.nil_append]
              rw [pjs_esc_t, hT]
              rfl
            · by_cases h6 : c.toNat = 8
              · have henc : jsonEscapeChar c = ['\\', 'b'] := by
                  simp [jsonEscapeChar, h1, h2, h3, h4, h5, h6]
                rw [henc]
                simp only [List.cons_append, List.nil_append]
                rw [pjs_esc_b, hT]
                have : Char.ofNat 8 = c := by
                  rw [← h6, Char.ofNat_toNat]
                rw [this]
                rfl
              · by_cases h7 : c.toNat = 12
                · have henc : jsonEscapeChar c = ['\\', 'f'] := by
                    simp [jsonEscapeChar, h1, h2, h3, h4, h5, h6, h7]
                  rw [henc]
                  simp only [List.cons_append, List.nil_append]
                  rw [pjs_esc_f, hT]
                  have : Char.ofNat 12 = c := by
                    rw [← h7, Char.ofNat_toNat]
                  rw [this]
                  rfl
                · by_cases h8 : 0x20 ≤ c.toNat ∧ c.toNat ≤ 0x7E
                  · have henc : jsonEscapeChar c = [c] := by
                      simp [jsonEscapeChar, h1, h2, h3, h4, h5, h6, h7, h8]
                    rw [henc]
                    simp only [List.cons_append, List.nil_append]
                    rw [pjs_plain h1 h2 (by omega), hT]
                    rfl
                  · obtain ⟨hsur, hub⟩ := Utf8.toNat_lt_excl_surrogate c
                    by_cases h9 : c.toNat < 0x10000
                    · have henc : jsonEscapeChar c = '\\' :: 'u' :: hex4 c.toNat := by
                        simp [jsonEscapeChar, h1, h2, h3, h4, h5, h6, h7, h8, h9]
                      rw [henc]
                      simp only [List.cons_append, List.append_assoc]
                      have hu := parseU_hex4 h9 (jsonEscape cs ++ '"' :: rest)
                      have hn1 : ¬(0xD800 ≤ c.toNat ∧ c.toNat < 0xDC00) := by
                        rcases hsur with h | h <;> omega
                      have hn2 : ¬(0xDC00 ≤ c.toNat ∧ c.toNat < 0xE000) := by
                        rcases hsur with h | h <;> omega
                      rw [pjs_u hu hn1 hn2, hT, Char.ofNat_toNat]
                      rfl
                    · have henc : jsonEscapeChar c =
                          '\\' :: 'u' :: hex4 (0xD800 + (c.toNat - 0x10000) / 0x400) ++
                          '\\' :: 'u' :: hex4 (0xDC00 + (c.toNat - 0x10000) % 0x400) := by
                        simp [jsonEscapeChar, h1, h2, h3, h4, h5, h6, h7, h8, h9]
                      rw [henc]
                      simp only [List.cons_append, List.append_assoc]
                      have hu := parseU_hex4
                        (show 0xD800 + (c.toNat - 0x10000) / 0x400 < 0x10000 by omega)
                        ('\\' :: 'u' :: (hex4 (0xDC00 + (c.toNat - 0x10000) % 0x400) ++
                          (jsonEscape cs ++ '"' :: rest)))
                      have hn : 0xD800 ≤ 0xD800 + (c.toNat - 0x10000) / 0x400 ∧
                          0xD800 + (c.toNat - 0x10000) / 0x400 < 0xDC00 := by
                        constructor
                        · omega
                        · omega
                      have hp := parsePair_eval
                        (show 0xDC00 ≤ 0xDC00 + (c.toNat - 0x10000) % 0x400 ∧
                          0xDC00 + (c.toNat - 0x10000) % 0x400 < 0xE000 by
                            constructor <;> omega)
                        (0xD800 + (c.toNat - 0x10000) / 0x400)
                        (jsonEscape cs ++ '"' :: rest)
                      rw [pjs_u_pair hu hn hp, hT]
                      have hv : (0xD800 + (c.toNat - 0x10000) / 0x400 - 0xD800) * 0x400 +
                          (0xDC00 + (c.toNat - 0x10000) % 0x400 - 0xDC00) + 0x10000 =
                          c.toNat := by omega
                      rw [hv, Char.ofNat_toNat]
                      rfl


/-- Rendering of the members of a flat JSON object, starting after the
opening quote of the first key, exactly as `json.dumps` emits them
(`': '` and `', '` separators, closing `}`). -/
def membersStr : List (PyStr × PyStr) → PyStr
  | [] => ['}']
  | e :: rest =>
    jsonEscape e.1 ++ '"' :: ':' :: ' ' :: '"' ::
      (jsonEscape e.2 ++ '"' ::
        (match rest with
         | [] => ['}']
         | _ :: _ => ',' :: ' ' :: '"' :: membersStr rest))

/-- `json.dumps` of a flat string-valued dict (insertion order, default
separators, `ensure_ascii=True`). -/
def jsonDumpsFlat (pairs : List (PyStr × PyStr)) : PyStr :=
  match pairs with
  | [] => ['{', '}']
  | _ :: _ => '{' :: '"' :: membersStr pairs

/-- Member-list parser (the fuel is an embedding artifact bounding the
iteration; one unit is spent per member, so any fuel at least the number
of members - in particular the input length - behaves as the unbounded
loop in `json.loads`). -/
def parseMembersFuel : Nat → PyStr → Option (List (PyStr × PyStr))
  | 0, _ => none
  | fuel + 1, s =>
    match parseJsonStringBody s with
    | none => none
    | some (k, r1) =>
      match r1 with
      | ':' :: ' ' :: '"' :: r2 =>
        match parseJsonStringBody r2 with
        | none => none
        | some (v, r3) =>
          match r3 with
          | ',' :: ' ' :: '"' :: r4 =>
            (parseMembersFuel fuel r4).map (fun tl => (k, v) :: tl)
          | ['}'] => some [(k, v)]
          | _ => none
      | _ => none

/-- `json.loads` on the flat string-object grammar that `json.dumps`
emits. -/
def jsonLoadsFlat (s : PyStr) : Option (List (PyStr × PyStr)) :=
  match s with
  | '{' :: '}' :: [] => some []
  | '{' :: '"' :: rest => parseMembersFuel s.length rest
  | _ => none

theorem length_le_membersStr : ∀ (pairs : List (PyStr × PyStr)),
    pairs.length ≤ (membersStr pairs).length := by
  intro pairs
  induction pairs with
  | nil => simp [membersStr]
  | cons e rest ih =>
    rw [membersStr.eq_def]
    cases rest with
    | nil =>
      simp
      omega
    | cons f rest' =>
      simp only [List.length_cons, List.length_append] at ih ⊢
      omega

theorem parseMembersFuel_members : ∀ (pairs : List (PyStr × PyStr))
    (fuel : Nat), pairs ≠ [] → pairs.length ≤ fuel →
    parseMembersFuel fuel (membersStr pairs) = some pairs := by
  intro pairs
  induction pairs with
  | nil => intro fuel h _; exact absurd rfl h
  | cons e rest ih =>
    intro fuel _ hfuel
    match fuel, hfuel with
    | f + 1, hf =>
      rw [membersStr.eq_def, parseMembersFuel]
      cases rest with
      | nil =>
        simp only [parseJsonStringBody_escape]
      | cons g rest' =>
        simp only [parseJsonStringBody_escape]
        rw [ih f (List.cons_ne_nil g rest')
          (by simp only [List.length_cons] at hf ⊢; omega)]
        simp

theorem jsonLoads_jsonDumps (pairs : List (PyStr × PyStr)) :
    jsonLoadsFlat (jsonDumpsFlat pairs) = some pairs := by
  cases pairs with
  | nil => rfl
  | cons e rest =>
    rw [jsonDumpsFlat, jsonLoadsFlat.eq_def]
    have hlen := length_le_membersStr (e :: rest)
    simp only [List.length_cons]
    rw [parseMembersFuel_members (e :: rest) _ (List.cons_ne_nil e rest)
      (by simp only [List.length_cons] at hlen ⊢; omega)]


end Json

/-! ## NaCl box model

The `nacl` library is external to the repository.  The model keeps the
two properties the codec relies on - the Diffie-Hellman key agreement
(`Box(k1, pub k2)` and `Box(k2, pub k1)` share a key) and authenticated
encryption whose ciphertext is 16 bytes (the tag) longer than the
message, with `decrypt` inverting `encrypt` under the shared key - and
the byte-level interface (32-byte public-key encodings, 24-byte nonces).
Key agreement is modelled as exponentiation in a small group; the cipher
as an additive stream cipher with a checksum tag. -/

namespace Crypto

/-- Group modulus of the model key exchange. -/
def P : Nat := 251

/-- Group generator of the model key exchange. -/
def G : Nat := 7

/-- `PrivateKey.public_key`. -/
def pub (sk : Nat) : Nat := G ^ sk % P

/-- The shared key of `Box(sk, pk)`. -/
def shared (sk pk : Nat) : Nat := pk ^ sk % P

/-- The Diffie-Hellman property: both ends of a box agree. -/
theorem shared_comm (a b : Nat) : shared a (pub b) = shared b (pub a) := by
  rw [shared, shared, pub, pub, ← Nat.pow_mod, ← Nat.pow_mod,
    ← pow_mul, ← pow_mul, Nat.mul_comm]

/-- Little-endian byte encoding of a given width (`PublicKey.encode()`
with width 32). -/
def natToBytesLE : Nat → Nat → PyBytes
  | 0, _ => []
  | w + 1, v => v % 256 :: natToBytesLE w (v / 256)

/-- `PublicKey(bytes)`: recover the value. -/
def bytesToNatLE : PyBytes → Nat
  | [] => 0
  | b :: rest => b + 256 * bytesToNatLE rest

theorem natToBytesLE_length : ∀ (w v : Nat), (natToBytesLE w v).length = w := by
  intro w
  induction w with
  | zero => intro v; rfl
  | succ w ih => intro v; rw [natToBytesLE]; simp [ih]

theorem bytesToNatLE_natToBytesLE : ∀ (w v : Nat), v < 256 ^ w →
    bytesToNatLE (natToBytesLE w v) = v := by
  intro w
  induction w with
  | zero =>
    intro v h
    simp only [pow_zero, Nat.lt_one_iff] at h
    rw [h]
    rfl
  | succ w ih =>
    intro v h
    rw [natToBytesLE, bytesToNatLE, ih (v / 256) (by
      rw [pow_succ] at h
      omega)]
    omega

theorem natToBytesLE_isBytes : ∀ (w v : Nat), IsBytes (natToBytesLE w v) := by
  intro w
  induction w with
  | zero => intro v b hb; simp [natToBytesLE] at hb
  | succ w ih =>
    intro v b hb
    rw [natToBytesLE] at hb
    rcases List.mem_cons.mp hb with h | h
    · omega
    · exact ih (v / 256) b h

/-- `PublicKey.encode()`: 32 bytes. -/
def pubkey_encode (pk : Nat) : PyBytes := natToBytesLE 32 pk

/-- `PublicKey(bytes)`. -/
def pubkey_decode (bs : PyBytes) : Nat := bytesToNatLE bs

theorem pubkey_decode_encode (pk : Nat) (h : pk < 256 ^ 32) :
    pubkey_decode (pubkey_encode pk) = pk :=
  bytesToNatLE_natToBytesLE 32 pk h

theorem pub_lt (sk : Nat) : pub sk < 256 ^ 32 := by
  have h1 : pub sk < P := Nat.mod_lt _ (by norm_num [P])
  have h2 : P < 256 ^ 32 := by norm_num [P]
  omega

/-- Model keystream byte `i`. -/
def ks (sh i : Nat) : Nat := (sh + i) % 256

/-- Stream-encrypt from index `i`. -/
def streamEnc (sh : Nat) : Nat → PyBytes → PyBytes
  | _, [] => []
  | i, b :: rest => (b + ks sh i) % 256 :: streamEnc sh (i + 1) rest

/-- Stream-decrypt from index `i`. -/
def streamDec (sh : Nat) : Nat → PyBytes → PyBytes
  | _, [] => []
  | i, b :: rest => (b + 256 - ks sh i) % 256 :: streamDec sh (i + 1) rest

theorem streamDec_streamEnc (sh : Nat) : ∀ (i : Nat) (msg : PyBytes),
    IsBytes msg → streamDec sh i (streamEnc sh i msg) = msg := by
  intro i msg
  induction msg generalizing i with
  | nil => intro _; rfl
  | cons b rest ih =>
    intro h
    have hb : b < 256 := h b (by simp)
    have hks : ks sh i < 256 := Nat.mod_lt _ (by norm_num)
    rw [streamEnc, streamDec, ih (i + 1) (fun x hx => h x (by simp [hx]))]
    have harith : ((b + ks sh i) % 256 + 256 - ks sh i) % 256 = b := by omega
    rw [harith]

/-- The 16-byte authentication tag of the model box. -/
def mac (sh : Nat) (nonce msg : PyBytes) : PyBytes :=
  List.replicate 16 ((sh + nonce.sum + msg.sum) % 256)

/-- The ciphertext part of `Box.encrypt` (which returns `nonce ++ this`):
tag then encrypted body; 16 bytes longer than the message. -/
def box_encrypt (sh : Nat) (nonce msg : PyBytes) : PyBytes :=
  mac sh nonce msg ++ streamEnc sh 0 msg

/-- `Box.decrypt(ct, nonce)`: check the tag, recover the message;
`CryptoError` (`none`) on a bad tag - e.g. under a different shared
key. -/
def box_decrypt (sh : Nat) (nonce ct : PyBytes) : Option PyBytes :=
  if ct.length < 16 then none
  else
    let msg := streamDec sh 0 (ct.drop 16)
    if ct.take 16 = mac sh nonce msg then some msg else none

theorem box_encrypt_length (sh : Nat) (nonce msg : PyBytes) :
    (box_encrypt sh nonce msg).length = msg.length + 16 := by
  rw [box_encrypt, List.length_append, mac]
  have : ∀ i (m : PyBytes), (streamEnc sh i m).length = m.length := by
    intro i m
    induction m generalizing i with
    | nil => rfl
    | cons b rest ih => rw [streamEnc]; simp [ih]
  rw [this]
  simp
  omega

theorem box_decrypt_box_encrypt (sh : Nat) (nonce msg : PyBytes)
    (h : IsBytes msg) :
    box_decrypt sh nonce (box_encrypt sh nonce msg) = some msg := by
  have hlen : (mac sh nonce msg).length = 16 := by simp [mac]
  rw [box_decrypt, box_encrypt]
  rw [if_neg (by
    rw [List.length_append, hlen]
    omega)]
  rw [List.take_left' hlen, List.drop_left' hlen,
    streamDec_streamEnc sh 0 msg h, if_pos rfl]

end Crypto


/-! ## The third-party caveat codec (`codec.py`)

`encode_caveat` / `decode_caveat` and their helpers, byte for byte.  The
nonce that `nacl` draws at random inside `Box.encrypt` is passed
explicitly (`Box.encrypt` returns `nonce ++ ciphertext`, which the
source then slices apart, as reproduced here). -/

namespace Codec

/-- `_PUBLIC_KEY_PREFIX_LEN` from `codec.py`. -/
def PUBLIC_KEY_PREFIX_LEN : Nat := 4

/-- `_KEY_LEN` from `codec.py`. -/
def KEY_LEN : Nat := 32

/-- `Box.NONCE_SIZE` (nacl). -/
def NONCE_SIZE : Nat := 24

/-- `_VERSION3_CAVEAT_MIN_LEN` from `codec.py`:
`1 + 4 + 32 + 24 + 16 + 1`. -/
def VERSION3_CAVEAT_MIN_LEN : Nat := 1 + 4 + 32 + 24 + 16 + 1

/-- Modelled from the spec: the bakery protocol versions (`BAKERY_V0` ..
`BAKERY_V3`, "bakery version (0..3; currently 3 latest)"); the module
defining these constants is referenced by `codec.py` but is not among
the sources. -/
def BAKERY_V0 : Nat := 0

/-- Modelled from the spec: bakery protocol version 1. -/
def BAKERY_V1 : Nat := 1

/-- Modelled from the spec: bakery protocol version 2. -/
def BAKERY_V2 : Nat := 2

/-- Modelled from the spec: bakery protocol version 3 (latest). -/
def BAKERY_V3 : Nat := 3

/-- Modelled from the spec: the latest bakery version. -/
def LATEST_BAKERY_VERSION : Nat := BAKERY_V3

/-- `ThirdPartyInfo`: the discharger's advertisement. -/
structure ThirdPartyInfo where
  version : Nat
  public_key : Nat
deriving DecidableEq, Repr

/-- `ThirdPartyCaveatInfo` as constructed by `codec.py` (the class in
`macaroon.py`).  Its `__init__` stores each field except `ns` wrapped in
a 1-tuple (trailing commas in the source); since the wrapping is a
bijection and `__eq__` compares like against like, the embedding uses
the unwrapped fields. -/
structure ThirdPartyCaveatInfo where
  condition : PyStr
  first_party_public_key : Nat
  third_party_key_pair : Nat
  root_key : PyBytes
  caveat : PyBytes
  version : Nat
  ns : NS.PyNamespace
deriving DecidableEq, Repr

/-- `ThirdPartyCaveatInfo.__eq__` (both the namedtuple in
`third_party.py` and the class in `macaroon.py` compare exactly these
six fields - `root_key` is not among them). -/
def infoEq (a b : ThirdPartyCaveatInfo) : Bool :=
  a.condition == b.condition &&
  a.first_party_public_key == b.first_party_public_key &&
  a.third_party_key_pair == b.third_party_key_pair &&
  a.caveat == b.caveat &&
  a.version == b.version &&
  NS.nsEq a.ns b.ns

/-- `legacy_namespace()` from `macaroon.py`: `std` mapped to the empty
prefix. -/
def legacy_namespace : NS.PyNamespace := ⟨[("std".data, [])]⟩

/-- `bytes.decode('ascii')` of base64 output (ASCII by construction). -/
def asciiStr (bs : PyBytes) : PyStr := bs.map Char.ofNat

/-- `base64.b64encode(bs).decode('ascii')`. -/
def b64str (bs : PyBytes) : PyStr := asciiStr (B64.b64encode bs)

/-- `base64.b64decode` applied to a `str` (encode to bytes, decode). -/
def b64decodeStr (s : PyStr) : Option PyBytes :=
  B64.b64decode (Utf8.utf8Encode s)

/-- `_encode_secret_part_v2_v3` from `codec.py`. -/
def encode_secret_part_v2_v3 (version : Nat) (condition : PyStr)
    (root_key : PyBytes) (ns : PyBytes) : PyBytes :=
  [version] ++ encode_uvarint root_key.length ++ root_key ++
  (if BAKERY_V3 ≤ version then encode_uvarint ns.length ++ ns else []) ++
  Utf8.utf8Encode condition

/-- `_encode_caveat_v2_v3` from `codec.py` (the nonce drawn inside
`Box.encrypt` is the explicit `nonce` argument). -/
def encode_caveat_v2_v3 (version : Nat) (condition : PyStr)
    (root_key : PyBytes) (third_party_pub_key : Nat) (key : Nat)
    (ns : NS.PyNamespace) (nonce : PyBytes) : PyBytes :=
  let ns_data : PyBytes :=
    if BAKERY_V3 ≤ version then NS.serialize ns else []
  let data := [version] ++
    (Crypto.pubkey_encode third_party_pub_key).take PUBLIC_KEY_PREFIX_LEN ++
    Crypto.pubkey_encode (Crypto.pub key)
  let secret := encode_secret_part_v2_v3 version condition root_key ns_data
  let encrypted_full :=
    nonce ++ Crypto.box_encrypt (Crypto.shared key third_party_pub_key) nonce secret
  let nonce' := encrypted_full.take NONCE_SIZE
  let encrypted := encrypted_full.drop NONCE_SIZE
  data ++ nonce' ++ encrypted

/-- `_encode_caveat_v1` from `codec.py`: a base64-wrapped JSON envelope
around a boxed `{RootKey, Condition}` JSON object. -/
def encode_caveat_v1 (condition : PyStr) (root_key : PyBytes)
    (third_party_pub_key : Nat) (key : Nat) (nonce : PyBytes) : PyBytes :=
  let plain_data := Json.jsonDumpsFlat
    [("RootKey".data, b64str root_key), ("Condition".data, condition)]
  let encrypted_full := nonce ++
    Crypto.box_encrypt (Crypto.shared key third_party_pub_key) nonce
      (Utf8.utf8Encode plain_data)
  let nonce' := encrypted_full.take NONCE_SIZE
  let encrypted := encrypted_full.drop NONCE_SIZE
  B64.b64encode (Utf8.utf8Encode (Json.jsonDumpsFlat
    [("ThirdPartyPublicKey".data, b64str (Crypto.pubkey_encode third_party_pub_key)),
     ("FirstPartyPublicKey".data, b64str (Crypto.pubkey_encode (Crypto.pub key))),
     ("Nonce".data, b64str nonce'),
     ("Id".data, b64str encrypted)]))

/-- `encode_caveat` from `codec.py`: dispatch on the advertised
version. -/
def encode_caveat (condition : PyStr) (root_key : PyBytes)
    (third_party_info : ThirdPartyInfo) (key : Nat) (ns : NS.PyNamespace)
    (nonce : PyBytes) : Except PyErr PyBytes :=
  if third_party_info.version = BAKERY_V1 then
    .ok (encode_caveat_v1 condition root_key third_party_info.public_key key nonce)
  else if third_party_info.version = BAKERY_V2 ∨
      third_party_info.version = BAKERY_V3 then
    .ok (encode_caveat_v2_v3 third_party_info.version condition root_key
      third_party_info.public_key key ns nonce)
  else .error (.notImplementedError ("only bakery v1, v2, v3 supported".data))

/-- `_decode_secret_part_v2_v3` from `codec.py`. -/
def decode_secret_part_v2_v3 (version : Nat) (data : PyBytes) :
    Except PyErr (PyBytes × PyBytes × NS.PyNamespace) :=
  match data with
  | [] => .error (.valueError ("secret part too short".data))
  | got_version :: data1 =>
    if version ≠ got_version then
      .error (.valueError ("unexpected secret part version".data))
    else
      let rk := decode_uvarint data1
      let data2 := data1.drop rk.2
      let root_key := data2.take rk.1
      let data3 := data2.drop rk.1
      if BAKERY_V3 ≤ version then
        let nsl := decode_uvarint data3
        let data4 := data3.drop nsl.2
        let ns_data := data4.take nsl.1
        let data5 := data4.drop nsl.1
        match NS.deserialize_namespace ns_data with
        | .error e => .error e
        | .ok ns => .ok (root_key, data5, ns)
      else .ok (root_key, data3, legacy_namespace)

/-- `_decode_caveat_v2_v3` from `codec.py`. -/
def decode_caveat_v2_v3 (version : Nat) (key : Nat) (caveat : PyBytes) :
    Except PyErr ThirdPartyCaveatInfo :=
  if caveat.length < 1 + PUBLIC_KEY_PREFIX_LEN + KEY_LEN + NONCE_SIZE + 16 then
    .error (.valueError ("caveat id too short".data))
  else
    let original_caveat := caveat
    let c1 := caveat.drop 1
    let pk_prefix := c1.take PUBLIC_KEY_PREFIX_LEN
    let c2 := c1.drop PUBLIC_KEY_PREFIX_LEN
    if (Crypto.pubkey_encode (Crypto.pub key)).take PUBLIC_KEY_PREFIX_LEN ≠
        pk_prefix then
      .error (.valueError ("public key mismatch".data))
    else
      let first_party_pub := c2.take KEY_LEN
      let c3 := c2.drop KEY_LEN
      let nonce := c3.take NONCE_SIZE
      let ct := c3.drop NONCE_SIZE
      let fp_public_key := Crypto.pubkey_decode first_party_pub
      match Crypto.box_decrypt (Crypto.shared key fp_public_key) nonce ct with
      | none => .error .cryptoError
      | some data =>
        match decode_secret_part_v2_v3 version data with
        | .error e => .error e
        | .ok (root_key, condition_bytes, ns) =>
          match Utf8.utf8Decode condition_bytes with
          | none => .error .unicodeDecodeError
          | some condition =>
            .ok ⟨condition, fp_public_key, key, root_key, original_caveat,
              version, ns⟩

/-- `_decode_caveat_v1` from `codec.py`.  (When the `Condition` field is
absent Python would build the info with condition `None`; the model
reports a `TypeError` there instead, a case unreachable from
codec-produced caveats.) -/
def decode_caveat_v1 (key : Nat) (caveat : PyBytes) :
    Except PyErr ThirdPartyCaveatInfo :=
  match B64.b64decode caveat with
  | none => .error (.valueError ("invalid base64".data))
  | some decoded =>
    match Utf8.utf8Decode decoded with
    | none => .error .unicodeDecodeError
    | some data =>
      match Json.jsonLoadsFlat data with
      | none => .error (.valueError ("invalid json".data))
      | some wrapper =>
        match NS.dictGet wrapper ("ThirdPartyPublicKey".data) with
        | none => .error (.keyError ("ThirdPartyPublicKey".data))
        | some tpk_str =>
          match b64decodeStr tpk_str with
          | none => .error (.valueError ("invalid base64".data))
          | some tpk_bytes =>
            let tp_public_key := Crypto.pubkey_decode tpk_bytes
            if Crypto.pub key ≠ tp_public_key then
              .error (.exception ("public key mismatch".data))
            else
              match NS.dictGet wrapper ("FirstPartyPublicKey".data) with
              | none =>
                .error (.exception ("target service public key not specified".data))
              | some fpk_str =>
                match NS.dictGet wrapper ("Id".data) with
                | none => .error (.typeError ("b64decode of None".data))
                | some id_str =>
                  match b64decodeStr id_str with
                  | none => .error (.valueError ("invalid base64".data))
                  | some secret =>
                    match NS.dictGet wrapper ("Nonce".data) with
                    | none => .error (.typeError ("b64decode of None".data))
                    | some nonce_str =>
                      match b64decodeStr nonce_str with
                      | none => .error (.valueError ("invalid base64".data))
                      | some nonce =>
                        match b64decodeStr fpk_str with
                        | none => .error (.valueError ("invalid base64".data))
                        | some fpk_bytes =>
                          let fp_public_key := Crypto.pubkey_decode fpk_bytes
                          match Crypto.box_decrypt
                              (Crypto.shared key fp_public_key) nonce secret with
                          | none => .error .cryptoError
                          | some c =>
                            match Utf8.utf8Decode c with
                            | none => .error .unicodeDecodeError
                            | some cstr =>
                              match Json.jsonLoadsFlat cstr with
                              | none => .error (.valueError ("invalid json".data))
                              | some record =>
                                match NS.dictGet record ("Condition".data) with
                                | none => .error (.typeError ("condition None".data))
                                | some condition =>
                                  match NS.dictGet record ("RootKey".data) with
                                  | none => .error (.typeError ("b64decode of None".data))
                                  | some rk_str =>
                                    match b64decodeStr rk_str with
                                    | none => .error (.valueError ("invalid base64".data))
                                    | some root_key =>
                                      .ok ⟨condition, fp_public_key, key,
                                        root_key, caveat, BAKERY_V1,
                                        legacy_namespace⟩

/-- `decode_caveat` from `codec.py`: dispatch on the first byte. -/
def decode_caveat (key : Nat) (caveat : PyBytes) :
    Except PyErr ThirdPartyCaveatInfo :=
  match caveat with
  | [] => .error (.valueError ("empty third party caveat".data))
  | first :: _ =>
    if first = 101 then decode_caveat_v1 key caveat
    else if first = BAKERY_V2 ∨ first = BAKERY_V3 then
      if caveat.length < VERSION3_CAVEAT_MIN_LEN ∧ first = BAKERY_V3 then
        .error (.valueError
          ("caveat id payload not provided for caveat id".data))
      else decode_caveat_v2_v3 first key caveat
    else .error (.notImplementedError ("only bakery v1 supported".data))

end Codec


/-! ### Support lemmas for the caveat round trip

Uvarint decoding in the presence of trailing data, and byte-range facts
for the encoders (every emitted value fits in a byte). -/

namespace Utf8

theorem utf8EncodeChar_isBytes (c : Char) : IsBytes (utf8EncodeChar c) := by
  intro b hb
  have hc : c.toNat < 0x110000 := by
    rcases toNat_isValidChar c with h | h
    · omega
    · omega
  unfold utf8EncodeChar at hb
  by_cases h1 : c.toNat < 0x80
  · rw [if_pos h1] at hb
    simp at hb
    omega
  · rw [if_neg h1] at hb
    by_cases h2 : c.toNat < 0x800
    · rw [if_pos h2] at hb
      simp at hb
      rcases hb with hb | hb <;> omega
    · rw [if_neg h2] at hb
      by_cases h3 : c.toNat < 0x10000
      · rw [if_pos h3] at hb
        simp at hb
        rcases hb with hb | hb | hb <;> omega
      · rw [if_neg h3] at hb
        simp at hb
        rcases hb with hb | hb | hb | hb <;> omega

theorem utf8Encode_isBytes (s : PyStr) : IsBytes (utf8Encode s) := by
  intro b hb
  rw [utf8Encode, List.mem_flatMap] at hb
  obtain ⟨c, _, hbc⟩ := hb
  exact utf8EncodeChar_isBytes c b hbc

end Utf8

namespace Codec

/-- The loop of `_decode_uvarint` stops at the terminator byte, so data
following an encoded uvarint is never consumed. -/
theorem decode_uvarint_loop_encode_append (n : Nat) :
    ∀ (rest : List Nat) (acc shift len : Nat),
      decode_uvarint_loop (encode_uvarint n ++ rest) acc shift len =
        (acc ||| (n <<< shift), len + (encode_uvarint n).length) := by
  induction n using Nat.strong_induction_on with
  | _ n ih =>
    intro rest acc shift len
    by_cases h : n < 128
    · rw [encode_uvarint, if_pos h]
      simp only [List.cons_append, List.nil_append, decode_uvarint_loop,
        and_128_eq_zero_of_lt h, if_pos rfl]
      have : n &&& 127 = n := by
        rw [and_127_eq_mod]; omega
      simp [this]
    · rw [encode_uvarint, if_neg h]
      simp only [List.cons_append, decode_uvarint_loop]
      rw [if_neg (encode_head_and_128 n)]
      have hlt : n >>> 7 < n := by
        have : n >>> 7 = n / 128 := by
          simp [Nat.shiftRight_eq_div_pow]
        omega
      simp only [List.append_eq]
      rw [ih _ hlt]
      rw [encode_head_and_127, Nat.or_assoc, mod_lor_shiftRight]
      simp only [List.length_cons, Prod.mk.injEq]
      exact ⟨trivial, by omega⟩

/-- `_decode_uvarint` recovers the value and the byte count even with
trailing data. -/
theorem decode_uvarint_append (n : Nat) (rest : List Nat) :
    decode_uvarint (encode_uvarint n ++ rest) =
      (n, (encode_uvarint n).length) := by
  rw [decode_uvarint, decode_uvarint_loop_encode_append]
  simp

/-- Every byte emitted by `_encode_uvarint` is below 256. -/
theorem encode_uvarint_isBytes (n : Nat) : IsBytes (encode_uvarint n) := by
  induction n using Nat.strong_induction_on with
  | _ n ih =>
    intro b hb
    by_cases h : n < 128
    · rw [encode_uvarint, if_pos h] at hb
      simp at hb
      omega
    · rw [encode_uvarint, if_neg h] at hb
      simp at hb
      rcases hb with hb | hb
      · subst hb
        have h1 : n &&& 127 < 2 ^ 8 := by
          rw [and_127_eq_mod]; omega
        exact Nat.or_lt_two_pow h1 (by norm_num)
      · have hlt : n >>> 7 < n := by
          have : n >>> 7 = n / 128 := by
            simp [Nat.shiftRight_eq_div_pow]
          omega
        exact ih _ hlt b hb

/-- `_encode_uvarint` never emits the empty string. -/
theorem encode_uvarint_ne_nil (n : Nat) : encode_uvarint n ≠ [] := by
  rw [encode_uvarint]
  by_cases h : n < 128 <;> simp [h]

end Codec

namespace Codec

/-- V2 secret-part round trip: the namespace payload is neither written
nor read, and the decoder substitutes the legacy namespace. -/
theorem decode_secret_part_encode_v2 (cond : PyStr) (rk nsd : PyBytes) :
    decode_secret_part_v2_v3 BAKERY_V2
        (encode_secret_part_v2_v3 BAKERY_V2 cond rk nsd) =
      .ok (rk, Utf8.utf8Encode cond, legacy_namespace) := by
  have hshape : encode_secret_part_v2_v3 BAKERY_V2 cond rk nsd =
      BAKERY_V2 :: (encode_uvarint rk.length ++ (rk ++ Utf8.utf8Encode cond)) := by
    simp [encode_secret_part_v2_v3, BAKERY_V2, BAKERY_V3]
  rw [hshape]
  simp only [decode_secret_part_v2_v3]
  rw [if_neg (by simp)]
  rw [decode_uvarint_append]
  simp only [List.drop_left, List.take_left]
  rw [if_neg (by simp [BAKERY_V2, BAKERY_V3])]

/-- V3 secret-part round trip, up to deserialisation of the namespace
payload. -/
theorem decode_secret_part_encode_v3 (cond : PyStr) (rk nsd : PyBytes) :
    decode_secret_part_v2_v3 BAKERY_V3
        (encode_secret_part_v2_v3 BAKERY_V3 cond rk nsd) =
      match NS.deserialize_namespace nsd with
      | .error e => .error e
      | .ok ns => .ok (rk, Utf8.utf8Encode cond, ns) := by
  have hshape : encode_secret_part_v2_v3 BAKERY_V3 cond rk nsd =
      BAKERY_V3 :: (encode_uvarint rk.length ++ (rk ++
        (encode_uvarint nsd.length ++ (nsd ++ Utf8.utf8Encode cond)))) := by
    simp [encode_secret_part_v2_v3, BAKERY_V3]
  rw [hshape]
  simp only [decode_secret_part_v2_v3]
  rw [if_neg (by simp)]
  rw [decode_uvarint_append]
  simp only [List.drop_left, List.take_left]
  rw [if_pos (by simp [BAKERY_V3])]
  rw [decode_uvarint_append]
  simp only [List.drop_left, List.take_left]

/-- Every byte of a V2/V3 secret part is below 256 (needed for the box
round trip). -/
theorem encode_secret_part_isBytes (version : Nat) (cond : PyStr)
    (rk nsd : PyBytes) (hv : version < 256) (hrk : IsBytes rk)
    (hns : IsBytes nsd) :
    IsBytes (encode_secret_part_v2_v3 version cond rk nsd) := by
  intro b hb
  simp only [encode_secret_part_v2_v3, List.append_assoc, List.cons_append,
    List.nil_append, List.mem_cons, List.mem_append] at hb
  rcases hb with hb | hb | hb | hb | hb
  · omega
  · exact encode_uvarint_isBytes _ b hb
  · exact hrk b hb
  · by_cases h3 : BAKERY_V3 ≤ version
    · rw [if_pos h3] at hb
      rcases List.mem_append.mp hb with hb | hb
      · exact encode_uvarint_isBytes _ b hb
      · exact hns b hb
    · rw [if_neg h3] at hb
      simp at hb
  · exact Utf8.utf8Encode_isBytes _ b hb

end Codec

namespace Codec

/-- V2/V3 caveat round trip down to the secret part: the byte layout
written by `_encode_caveat_v2_v3` is sliced back apart exactly by
`_decode_caveat_v2_v3`, the public-key prefix check passes, and the box
decrypts (the two shared keys agree by `shared_comm`). -/
theorem decode_caveat_v2_v3_encode (version fpSk tpSk : Nat) (cond : PyStr)
    (rk nonce : PyBytes) (ns : NS.PyNamespace)
    (hv : version = BAKERY_V2 ∨ version = BAKERY_V3)
    (hrk : IsBytes rk) (hn : nonce.length = NONCE_SIZE) :
    decode_caveat_v2_v3 version tpSk
        (encode_caveat_v2_v3 version cond rk (Crypto.pub tpSk) fpSk ns nonce) =
      match decode_secret_part_v2_v3 version
          (encode_secret_part_v2_v3 version cond rk
            (if BAKERY_V3 ≤ version then NS.serialize ns else [])) with
      | .error e => .error e
      | .ok (root_key, cbytes, ns') =>
        match Utf8.utf8Decode cbytes with
        | none => .error .unicodeDecodeError
        | some condition =>
          .ok ⟨condition, Crypto.pub fpSk, tpSk, root_key,
            encode_caveat_v2_v3 version cond rk (Crypto.pub tpSk) fpSk ns nonce,
            version, ns'⟩ := by
  have hn24 : nonce.length = 24 := hn
  have hsec : IsBytes (encode_secret_part_v2_v3 version cond rk
      (if BAKERY_V3 ≤ version then NS.serialize ns else [])) := by
    apply encode_secret_part_isBytes
    · rcases hv with h | h <;> simp [h, BAKERY_V2, BAKERY_V3]
    · exact hrk
    · by_cases h3 : BAKERY_V3 ≤ version
      · rw [if_pos h3]
        simp only [NS.serialize]
        exact Utf8.utf8Encode_isBytes _
      · rw [if_neg h3]
        intro b hb
        simp at hb
  have hshape : encode_caveat_v2_v3 version cond rk (Crypto.pub tpSk) fpSk ns nonce =
      version :: ((Crypto.pubkey_encode (Crypto.pub tpSk)).take 4 ++
        (Crypto.pubkey_encode (Crypto.pub fpSk) ++ (nonce ++
          Crypto.box_encrypt (Crypto.shared fpSk (Crypto.pub tpSk)) nonce
            (encode_secret_part_v2_v3 version cond rk
              (if BAKERY_V3 ≤ version then NS.serialize ns else []))))) := by
    simp only [encode_caveat_v2_v3, PUBLIC_KEY_PREFIX_LEN, NONCE_SIZE]
    rw [List.take_left' hn24, List.drop_left' hn24]
    simp [List.append_assoc]
  have hlen4 : ((Crypto.pubkey_encode (Crypto.pub tpSk)).take 4).length = 4 := by
    simp [Crypto.pubkey_encode, Crypto.natToBytesLE_length]
  have hlen32 : (Crypto.pubkey_encode (Crypto.pub fpSk)).length = 32 := by
    simp [Crypto.pubkey_encode, Crypto.natToBytesLE_length]
  rw [hshape]
  simp only [decode_caveat_v2_v3, PUBLIC_KEY_PREFIX_LEN, KEY_LEN, NONCE_SIZE]
  rw [if_neg (by
    simp only [List.length_cons, List.length_append, hlen4, hlen32, hn24,
      Crypto.box_encrypt_length]
    omega)]
  simp only [List.drop_succ_cons, List.drop_zero]
  rw [List.take_left' hlen4, List.drop_left' hlen4]
  rw [if_neg (by simp)]
  rw [List.take_left' hlen32, List.drop_left' hlen32]
  rw [List.take_left' hn24, List.drop_left' hn24]
  rw [Crypto.pubkey_decode_encode _ (Crypto.pub_lt fpSk)]
  rw [Crypto.shared_comm tpSk fpSk]
  rw [Crypto.box_decrypt_box_encrypt _ _ _ hsec]

end Codec

namespace Codec

/-- Byte layout of `_encode_caveat_v2_v3`, with the slices named. -/
theorem encode_caveat_v2_v3_shape (version : Nat) (cond : PyStr)
    (rk : PyBytes) (tpPub fpSk : Nat) (ns : NS.PyNamespace)
    (nonce : PyBytes) (hn24 : nonce.length = 24) :
    encode_caveat_v2_v3 version cond rk tpPub fpSk ns nonce =
      version :: ((Crypto.pubkey_encode tpPub).take 4 ++
        (Crypto.pubkey_encode (Crypto.pub fpSk) ++ (nonce ++
          Crypto.box_encrypt (Crypto.shared fpSk tpPub) nonce
            (encode_secret_part_v2_v3 version cond rk
              (if BAKERY_V3 ≤ version then NS.serialize ns else []))))) := by
  simp only [encode_caveat_v2_v3, PUBLIC_KEY_PREFIX_LEN, NONCE_SIZE]
  rw [List.take_left' hn24, List.drop_left' hn24]
  simp [List.append_assoc]

/-- A secret part is never empty (it starts with the version byte). -/
theorem encode_secret_part_length_pos (version : Nat) (cond : PyStr)
    (rk nsd : PyBytes) :
    1 ≤ (encode_secret_part_v2_v3 version cond rk nsd).length := by
  simp [encode_secret_part_v2_v3]

/-- Length of an encoded V2/V3 caveat: the 77-byte header/overhead plus
the secret part. -/
theorem encode_caveat_v2_v3_length (version : Nat) (cond : PyStr)
    (rk : PyBytes) (tpPub fpSk : Nat) (ns : NS.PyNamespace)
    (nonce : PyBytes) (hn24 : nonce.length = 24) :
    (encode_caveat_v2_v3 version cond rk tpPub fpSk ns nonce).length =
      77 + (encode_secret_part_v2_v3 version cond rk
        (if BAKERY_V3 ≤ version then NS.serialize ns else [])).length := by
  rw [encode_caveat_v2_v3_shape version cond rk tpPub fpSk ns nonce hn24]
  have h4 : ((Crypto.pubkey_encode tpPub).take 4).length = 4 := by
    simp [Crypto.pubkey_encode, Crypto.natToBytesLE_length]
  have h32 : (Crypto.pubkey_encode (Crypto.pub fpSk)).length = 32 := by
    simp [Crypto.pubkey_encode, Crypto.natToBytesLE_length]
  simp only [List.length_cons, List.length_append, h4, h32, hn24,
    Crypto.box_encrypt_length]
  omega

/-- `decode_caveat` routes an encoded V2/V3 caveat to
`_decode_caveat_v2_v3`: the first byte is the version (not `'e'`), and
the encoded form always meets the V3 minimum length. -/
theorem decode_caveat_encode_v2_v3 (version fpSk tpSk : Nat) (cond : PyStr)
    (rk nonce : PyBytes) (ns : NS.PyNamespace)
    (hv : version = BAKERY_V2 ∨ version = BAKERY_V3)
    (hn : nonce.length = NONCE_SIZE) :
    decode_caveat tpSk
        (encode_caveat_v2_v3 version cond rk (Crypto.pub tpSk) fpSk ns nonce) =
      decode_caveat_v2_v3 version tpSk
        (encode_caveat_v2_v3 version cond rk (Crypto.pub tpSk) fpSk ns nonce) := by
  have hn24 : nonce.length = 24 := hn
  have hlen : (encode_caveat_v2_v3 version cond rk (Crypto.pub tpSk) fpSk
      ns nonce).length =
      77 + (encode_secret_part_v2_v3 version cond rk
        (if BAKERY_V3 ≤ version then NS.serialize ns else [])).length :=
    encode_caveat_v2_v3_length version cond rk (Crypto.pub tpSk) fpSk ns nonce hn24
  have hpos : 1 ≤ (encode_secret_part_v2_v3 version cond rk
      (if BAKERY_V3 ≤ version then NS.serialize ns else [])).length :=
    encode_secret_part_length_pos _ _ _ _
  rw [encode_caveat_v2_v3_shape version cond rk (Crypto.pub tpSk) fpSk ns nonce hn24]
    at hlen ⊢
  simp only [decode_caveat]
  rw [if_neg (by rcases hv with h | h <;> simp [h, BAKERY_V2, BAKERY_V3])]
  rw [if_pos hv]
  rw [if_neg (by
    simp only [VERSION3_CAVEAT_MIN_LEN]
    intro hcon
    omega)]

end Codec

namespace Utf8

theorem toNat_ofNat_lt {n : Nat} (h : n < 0xD800) :
    (Char.ofNat n).toNat = n := by
  rw [Char.ofNat, dif_pos (Or.inl h)]
  rfl

/-- UTF-8 encoding of an ASCII character prepends its single byte. -/
theorem utf8Encode_cons_ascii {c : Char} (h : c.toNat < 0x80) (s : PyStr) :
    utf8Encode (c :: s) = c.toNat :: utf8Encode s := by
  simp only [utf8Encode, List.flatMap_cons]
  rw [utf8EncodeChar, if_pos h]
  simp

/-- `str.encode('utf-8')` inverts `bytes.decode('ascii')` on ASCII
byte strings. -/
theorem utf8Encode_asciiStr (bs : PyBytes) (h : ∀ b ∈ bs, b < 128) :
    utf8Encode (Codec.asciiStr bs) = bs := by
  induction bs with
  | nil => rfl
  | cons b t ih =>
    have hb : b < 128 := h b (by simp)
    have htn : (Char.ofNat b).toNat = b := toNat_ofNat_lt (by omega)
    simp only [Codec.asciiStr, List.map_cons]
    rw [utf8Encode_cons_ascii (by rw [htn]; omega), htn]
    have ih' := ih (fun x hx => h x (by simp [hx]))
    simp only [Codec.asciiStr] at ih'
    rw [ih']

end Utf8

namespace B64

/-- The head of a base64 encoding is the character of the top six bits
of the first byte. -/
theorem b64encode_head (b0 : Nat) (rest : PyBytes) :
    ∃ t, b64encode (b0 :: rest) = b64Char (b0 / 4) :: t := by
  match rest with
  | [] => exact ⟨_, rfl⟩
  | [b1] => exact ⟨_, rfl⟩
  | b1 :: b2 :: r => exact ⟨_, rfl⟩

end B64

namespace Codec

/-- `base64.b64decode` (on `str`) inverts `base64.b64encode(...)
.decode('ascii')`. -/
theorem b64decodeStr_b64str (bs : PyBytes) (h : IsBytes bs) :
    b64decodeStr (b64str bs) = some bs := by
  rw [b64decodeStr, b64str,
    Utf8.utf8Encode_asciiStr _ (B64.b64encode_lt_128 bs),
    B64.b64decode_b64encode bs h]

end Codec

namespace Crypto

theorem streamEnc_isBytes (sh : Nat) : ∀ (i : Nat) (msg : PyBytes),
    IsBytes (streamEnc sh i msg) := by
  intro i msg
  induction msg generalizing i with
  | nil =>
    intro b hb
    simp [streamEnc] at hb
  | cons x rest ih =>
    intro b hb
    rw [streamEnc] at hb
    rcases List.mem_cons.mp hb with hb | hb
    · subst hb
      exact Nat.mod_lt _ (by norm_num)
    · exact ih (i + 1) b hb

theorem mac_isBytes (sh : Nat) (nonce msg : PyBytes) :
    IsBytes (mac sh nonce msg) := by
  intro b hb
  rw [mac] at hb
  rw [List.mem_replicate] at hb
  rw [hb.2]
  exact Nat.mod_lt _ (by norm_num)

theorem box_encrypt_isBytes (sh : Nat) (nonce msg : PyBytes) :
    IsBytes (box_encrypt sh nonce msg) := by
  intro b hb
  rw [box_encrypt] at hb
  rcases List.mem_append.mp hb with hb | hb
  · exact mac_isBytes sh nonce msg b hb
  · exact streamEnc_isBytes sh 0 msg b hb

theorem pubkey_encode_isBytes (pk : Nat) : IsBytes (pubkey_encode pk) :=
  natToBytesLE_isBytes 32 pk

end Crypto

namespace Codec

/-- A base64-wrapped JSON object starts with `'e'` (the base64 image of
`'{'`'s top six bits). -/
theorem b64_json_head (p : PyStr × PyStr) (ps : List (PyStr × PyStr)) :
    ∃ t, B64.b64encode (Utf8.utf8Encode (Json.jsonDumpsFlat (p :: ps))) =
      101 :: t := by
  have h1 : Json.jsonDumpsFlat (p :: ps) =
      '{' :: ('"' :: Json.membersStr (p :: ps)) := rfl
  rw [h1, Utf8.utf8Encode_cons_ascii (by decide)]
  have h123 : ('{' : Char).toNat = 123 := by decide
  rw [h123]
  obtain ⟨t, ht⟩ := B64.b64encode_head 123
    (Utf8.utf8Encode ('"' :: Json.membersStr (p :: ps)))
  rw [ht]
  refine ⟨t, ?_⟩
  have : B64.b64Char (123 / 4) = 101 := by decide
  rw [this]

/-- `decode_caveat` routes an encoded V1 caveat to `_decode_caveat_v1`:
its first byte is `'e'`. -/
theorem decode_caveat_encode_v1 (tpPub fpSk tpSk : Nat) (cond : PyStr)
    (rk nonce : PyBytes) :
    decode_caveat tpSk (encode_caveat_v1 cond rk tpPub fpSk nonce) =
      decode_caveat_v1 tpSk (encode_caveat_v1 cond rk tpPub fpSk nonce) := by
  have hE : ∃ p ps, encode_caveat_v1 cond rk tpPub fpSk nonce =
      B64.b64encode (Utf8.utf8Encode (Json.jsonDumpsFlat (p :: ps))) :=
    ⟨_, _, rfl⟩
  obtain ⟨p, ps, hE⟩ := hE
  obtain ⟨t, ht⟩ := b64_json_head p ps
  rw [hE, ht]
  simp [decode_caveat]

/-- V1 caveat round trip: the base64/JSON envelope and the boxed JSON
record are inverted field by field; the recovered info carries version 1
and the legacy namespace. -/
theorem decode_caveat_v1_encode (fpSk tpSk : Nat) (cond : PyStr)
    (rk nonce : PyBytes) (hrk : IsBytes rk) (hnb : IsBytes nonce)
    (hn : nonce.length = NONCE_SIZE) :
    decode_caveat_v1 tpSk
        (encode_caveat_v1 cond rk (Crypto.pub tpSk) fpSk nonce) =
      .ok ⟨cond, Crypto.pub fpSk, tpSk, rk,
        encode_caveat_v1 cond rk (Crypto.pub tpSk) fpSk nonce,
        BAKERY_V1, legacy_namespace⟩ := by
  have hn24 : nonce.length = 24 := hn
  have hEnc : encode_caveat_v1 cond rk (Crypto.pub tpSk) fpSk nonce =
      B64.b64encode (Utf8.utf8Encode (Json.jsonDumpsFlat
        [("ThirdPartyPublicKey".data, b64str (Crypto.pubkey_encode (Crypto.pub tpSk))),
         ("FirstPartyPublicKey".data, b64str (Crypto.pubkey_encode (Crypto.pub fpSk))),
         ("Nonce".data, b64str nonce),
         ("Id".data, b64str (Crypto.box_encrypt
           (Crypto.shared fpSk (Crypto.pub tpSk)) nonce
           (Utf8.utf8Encode (Json.jsonDumpsFlat
             [("RootKey".data, b64str rk), ("Condition".data, cond)]))))])) := by
    simp only [encode_caveat_v1, NONCE_SIZE]
    rw [List.take_left' hn24, List.drop_left' hn24]
  have hbox : ∀ (msg : PyBytes), IsBytes msg →
      Crypto.box_decrypt (Crypto.shared tpSk (Crypto.pub fpSk)) nonce
        (Crypto.box_encrypt (Crypto.shared fpSk (Crypto.pub tpSk)) nonce msg) =
      some msg := by
    intro msg hm
    rw [Crypto.shared_comm tpSk fpSk]
    exact Crypto.box_decrypt_box_encrypt _ _ _ hm
  have hk1 : "ThirdPartyPublicKey".data ≠ "FirstPartyPublicKey".data := by decide
  have hk2 : "ThirdPartyPublicKey".data ≠ "Nonce".data := by decide
  have hk3 : "ThirdPartyPublicKey".data ≠ "Id".data := by decide
  have hk4 : "FirstPartyPublicKey".data ≠ "Nonce".data := by decide
  have hk5 : "FirstPartyPublicKey".data ≠ "Id".data := by decide
  have hk6 : "Nonce".data ≠ "Id".data := by decide
  have hk7 : "RootKey".data ≠ "Condition".data := by decide
  rw [hEnc]
  simp only [decode_caveat_v1, B64.b64decode_b64encode, Utf8.utf8Encode_isBytes,
    Utf8.utf8Decode_utf8Encode, Json.jsonLoads_jsonDumps, NS.dictGet,
    b64decodeStr_b64str, Crypto.pubkey_encode_isBytes,
    Crypto.box_encrypt_isBytes, hrk, hnb, hbox,
    Crypto.pubkey_decode_encode, Crypto.pub_lt,
    hk1, hk2, hk3, hk4, hk5, hk6, hk7,
    ne_eq, eq_self_iff_true, not_true, ite_true, ite_false]

end Codec

namespace Codec

/-- Full V1 round trip through the dispatching `decode_caveat`. -/
theorem roundtrip_v1 (fpSk tpSk : Nat) (cond : PyStr) (rk nonce : PyBytes)
    (hrk : IsBytes rk) (hnb : IsBytes nonce)
    (hn : nonce.length = NONCE_SIZE) :
    decode_caveat tpSk (encode_caveat_v1 cond rk (Crypto.pub tpSk) fpSk nonce) =
      .ok ⟨cond, Crypto.pub fpSk, tpSk, rk,
        encode_caveat_v1 cond rk (Crypto.pub tpSk) fpSk nonce,
        BAKERY_V1, legacy_namespace⟩ := by
  rw [decode_caveat_encode_v1, decode_caveat_v1_encode fpSk tpSk cond rk nonce
    hrk hnb hn]

/-- Full V2 round trip through the dispatching `decode_caveat`: the
decoded info carries the legacy namespace, whatever namespace was handed
to the encoder. -/
theorem roundtrip_v2 (fpSk tpSk : Nat) (cond : PyStr) (rk nonce : PyBytes)
    (ns : NS.PyNamespace) (hrk : IsBytes rk)
    (hn : nonce.length = NONCE_SIZE) :
    decode_caveat tpSk
        (encode_caveat_v2_v3 BAKERY_V2 cond rk (Crypto.pub tpSk) fpSk ns nonce) =
      .ok ⟨cond, Crypto.pub fpSk, tpSk, rk,
        encode_caveat_v2_v3 BAKERY_V2 cond rk (Crypto.pub tpSk) fpSk ns nonce,
        BAKERY_V2, legacy_namespace⟩ := by
  rw [decode_caveat_encode_v2_v3 BAKERY_V2 fpSk tpSk cond rk nonce ns
    (Or.inl rfl) hn]
  rw [decode_caveat_v2_v3_encode BAKERY_V2 fpSk tpSk cond rk nonce ns
    (Or.inl rfl) hrk hn]
  rw [if_neg (by decide)]
  rw [decode_secret_part_encode_v2]
  simp [Utf8.utf8Decode_utf8Encode]

/-- Full V3 round trip through the dispatching `decode_caveat`, for a
serialisable namespace: the decoded info carries a namespace that is
Python-`==` to the original. -/
theorem roundtrip_v3 (fpSk tpSk : Nat) (cond : PyStr) (rk nonce : PyBytes)
    (ns : NS.PyNamespace) (hrk : IsBytes rk)
    (hn : nonce.length = NONCE_SIZE)
    (hval : NS.ValidEntries ns.entries)
    (hcolon : ∀ e ∈ ns.entries, ¬(e.1.contains ':' = true))
    (hnd : NS.NodupKeys ns.entries) (hne : ns.entries ≠ []) :
    ∃ ns', NS.nsEq ns' ns = true ∧
      decode_caveat tpSk
          (encode_caveat_v2_v3 BAKERY_V3 cond rk (Crypto.pub tpSk) fpSk ns nonce) =
        .ok ⟨cond, Crypto.pub fpSk, tpSk, rk,
          encode_caveat_v2_v3 BAKERY_V3 cond rk (Crypto.pub tpSk) fpSk ns nonce,
          BAKERY_V3, ns'⟩ := by
  obtain ⟨ns', hdes, hnseq, _⟩ :=
    NS.deserialize_serialize ns hval hcolon hnd hne
  refine ⟨ns', hnseq, ?_⟩
  rw [decode_caveat_encode_v2_v3 BAKERY_V3 fpSk tpSk cond rk nonce ns
    (Or.inr rfl) hn]
  rw [decode_caveat_v2_v3_encode BAKERY_V3 fpSk tpSk cond rk nonce ns
    (Or.inr rfl) hrk hn]
  rw [if_pos (by decide)]
  rw [decode_secret_part_encode_v3, hdes]
  simp [Utf8.utf8Decode_utf8Encode]

end Codec

namespace Codec

/-- The payload-not-provided error raised by `decode_caveat`'s length
check for version-3 caveats. -/
def payloadNotProvidedErr : PyErr :=
  .valueError ("caveat id payload not provided for caveat id".data)

/-- `Namespace.register` never raises the payload error. -/
theorem register_ne_payload (ns : NS.PyNamespace) (uri pfx : PyStr) :
    NS.register ns uri pfx ≠ .error payloadNotProvidedErr := by
  intro h
  rw [NS.register] at h
  split at h
  · injection h with h1
    injection h1
  · split at h
    · injection h with h1
      injection h1 with h2
      exact absurd h2 (by decide)
    · split at h <;> exact Except.noConfusion h

/-- Folding `register` never raises the payload error. -/
theorem foldlM_register_ne_payload : ∀ (d : NS.Dict) (ns : NS.PyNamespace),
    d.foldlM (fun ns e => NS.register ns e.1 e.2) ns ≠
      .error payloadNotProvidedErr := by
  intro d
  induction d with
  | nil =>
    intro ns h
    rw [List.foldlM_nil] at h
    exact Except.noConfusion h
  | cons e t ih =>
    intro ns h
    rw [List.foldlM_cons] at h
    cases hreg : NS.register ns e.1 e.2 with
    | error er =>
      rw [hreg] at h
      simp only [bind, Except.bind] at h
      injection h with h1
      exact register_ne_payload ns e.1 e.2 (by rw [hreg, h1])
    | ok ns' =>
      rw [hreg] at h
      simp only [bind, Except.bind] at h
      exact ih ns' h

/-- `Namespace.__init__` never raises the payload error. -/
theorem namespaceInit_ne_payload (d : NS.Dict) :
    NS.namespaceInit d ≠ .error payloadNotProvidedErr :=
  foldlM_register_ne_payload d ⟨[]⟩

/-- A `mapM` whose body only ever raises `unpackError` only ever raises
`unpackError`. -/
theorem mapM_err_of (f : PyStr → Except PyErr (PyStr × PyStr))
    (hf : ∀ kv e', f kv = .error e' → e' = PyErr.unpackError) :
    ∀ (kvs : List PyStr) (e : PyErr),
      kvs.mapM f = .error e → e = PyErr.unpackError := by
  intro kvs
  induction kvs with
  | nil =>
    intro e h
    rw [List.mapM_nil] at h
    exact Except.noConfusion h
  | cons kv t ih =>
    intro e h
    rw [List.mapM_cons] at h
    cases hk : f kv with
    | error er =>
      rw [hk] at h
      simp only [bind, Except.bind] at h
      injection h with h1
      rw [← h1]
      exact hf kv er hk
    | ok p =>
      rw [hk] at h
      simp only [bind, Except.bind] at h
      cases hm : t.mapM f with
      | error er2 =>
        rw [hm] at h
        simp only [bind, Except.bind] at h
        injection h with h1
        rw [← h1]
        exact ih er2 hm
      | ok rest =>
        rw [hm] at h
        simp only [bind, Except.bind, pure, Except.pure] at h
        exact Except.noConfusion h

/-- `deserialize_namespace` never raises the payload error. -/
theorem deserialize_ne_payload (data : PyBytes) :
    NS.deserialize_namespace data ≠ .error payloadNotProvidedErr := by
  intro h
  rw [NS.deserialize_namespace] at h
  cases hu : Utf8.utf8Decode data with
  | none =>
    rw [hu] at h
    simp only [bind, Except.bind] at h
    injection h with h1
    injection h1
  | some s =>
    rw [hu] at h
    simp only [bind, Except.bind] at h
    cases hm : (NS.splitOnChar ' ' s).mapM (fun kv =>
        match NS.splitOnChar ':' kv with
        | [k, v] => Except.ok (k, v)
        | _ => Except.error PyErr.unpackError) with
    | error er =>
      rw [hm] at h
      simp only at h
      injection h with h1
      have her : er = PyErr.unpackError := by
        refine mapM_err_of _ ?_ _ _ hm
        intro kv e' hkv
        split at hkv
        · exact Except.noConfusion hkv
        · injection hkv with h2
          exact h2.symm
      rw [her] at h1
      injection h1
    | ok pairs =>
      rw [hm] at h
      simp only at h
      exact namespaceInit_ne_payload _ h

/-- `_decode_secret_part_v2_v3` never raises the payload error. -/
theorem decode_secret_part_ne_payload (version : Nat) (data : PyBytes) :
    decode_secret_part_v2_v3 version data ≠ .error payloadNotProvidedErr := by
  intro h
  cases data with
  | nil =>
    simp only [decode_secret_part_v2_v3] at h
    injection h with h1
    injection h1 with h2
    exact absurd h2 (by decide)
  | cons got data1 =>
    simp only [decode_secret_part_v2_v3] at h
    split at h
    · injection h with h1
      injection h1 with h2
      exact absurd h2 (by decide)
    · split at h
      · split at h
        · rename_i e' hdes
          injection h with h1
          exact deserialize_ne_payload _ (by rw [hdes, h1])
        · exact Except.noConfusion h
      · exact Except.noConfusion h

/-- `_decode_caveat_v2_v3` never raises the payload error: that error can
only come from the length check in `decode_caveat`'s dispatch. -/
theorem decode_caveat_v2_v3_ne_payload (version key : Nat)
    (caveat : PyBytes) :
    decode_caveat_v2_v3 version key caveat ≠
      .error payloadNotProvidedErr := by
  intro h
  simp only [decode_caveat_v2_v3] at h
  split at h
  · injection h with h1
    injection h1 with h2
    exact absurd h2 (by decide)
  · split at h
    · injection h with h1
      injection h1 with h2
      exact absurd h2 (by decide)
    · split at h
      · injection h with h1
        injection h1
      · split at h
        · rename_i e' hsec
          injection h with h1
          exact decode_secret_part_ne_payload _ _ (by rw [hsec, h1])
        · split at h
          · injection h with h1
            injection h1
          · exact Except.noConfusion h

end Codec

/-! ## Caveats (`checkers/checkers.py`) -/

namespace Checkers

/-- Modelled from the spec: `STD_NAMESPACE` (imported from
`checkers/namespace.py`, which is not among the sources) is the standard
namespace URI `std`. -/
def STD_NAMESPACE : PyStr := "std".data

/-- `checkers.Caveat` (a namedtuple of condition, location, namespace;
the namespace field is called `ns` here as `namespace` is reserved). -/
structure Caveat where
  condition : PyStr
  location : Option PyStr
  ns : Option PyStr
deriving DecidableEq, Repr

/-- `COND_TIME_BEFORE` from `checkers.py`. -/
def COND_TIME_BEFORE : PyStr := "time-before".data

/-- `COND_NEED_DECLARED` from `checkers.py`. -/
def COND_NEED_DECLARED : PyStr := "need-declared".data

/-- `_first_party` from `checkers.py`: condition is `name + " " + arg`,
or just `name` when the argument is empty; no location; std namespace. -/
def first_party (name arg : PyStr) : Caveat :=
  { condition := if arg = [] then name else name ++ ' ' :: arg,
    location := none,
    ns := some STD_NAMESPACE }

/-- `time_before_caveat(t)` from `checkers.py`.  The rendering function
`rfc3339.rfc3339` and the clock are abstracted as parameters of the
embedding (`rfc3339` and `now`); the source calls
`rfc3339.rfc3339(datetime.datetime.now())`, so the parameter `t` is
never read. -/
def time_before_caveat {DT : Type} (rfc3339 : DT → PyStr) (now : DT)
    (_t : DT) : Caveat :=
  first_party COND_TIME_BEFORE (rfc3339 now)

end Checkers

/-! ## Discharging (`discharge.py`)

The pymacaroons `Macaroon` is modelled with the fields `discharge_all`
reads (identifier, location, caveats, signature); `prepare_for_request`
is pymacaroons library code, modelled from the spec as an injective
binding of the discharge's signature to the primary's. -/

namespace Discharge

/-- A pymacaroons caveat: its id (`caveat_id_bytes`) and optional
third-party location. -/
structure PCaveat where
  caveat_id : PyBytes
  location : Option PyStr
deriving DecidableEq, Repr

/-- The pymacaroons macaroon, as read by `discharge_all`. -/
structure PMacaroon where
  identifier : PyBytes
  location : PyStr
  caveats : List PCaveat
  signature : Nat
deriving DecidableEq, Repr

/-- Modelled from the spec: `prepare_for_request` "binds the discharge's
signature to the primary (prevents replay with other primaries)" -
pymacaroons computes an HMAC of the two signatures, modelled as an
injective pairing. -/
def prepare_for_request (primary dm : PMacaroon) : PMacaroon :=
  { dm with signature := Nat.pair primary.signature dm.signature }

/-- The bakery `Macaroon` wrapper as read by `discharge_all`: the
underlying pymacaroon plus the `caveat_data` dict of externally held
caveat payloads. -/
structure BMacaroon where
  macaroon : PMacaroon
  caveat_data : List (PyBytes × PyBytes)
deriving DecidableEq, Repr

/-- `dict.get` on the `caveat_data` dict. -/
def bytesDictGet : List (PyBytes × PyBytes) → PyBytes → Option PyBytes
  | [], _ => none
  | (k', v) :: rest, k => if k' = k then some v else bytesDictGet rest k

/-- The caveats `discharge_all` queues for a macaroon (its `add_caveats`
closure): every caveat with a non-empty location, paired with the
externally held payload, in caveat order. -/
structure NeedCaveat where
  cav : PCaveat
  encrypted_caveat : Option PyBytes
deriving DecidableEq, Repr

/-- `add_caveats` from `discharge_all`: skip first-party caveats
(no location or empty location), look up `caveat_data`. -/
def add_caveats (m : BMacaroon) : List NeedCaveat :=
  m.macaroon.caveats.filterMap (fun cav =>
    match cav.location with
    | none => none
    | some loc =>
      if loc = [] then none
      else some ⟨cav, bytesDictGet m.caveat_data cav.caveat_id⟩)

/-- `_LocalDischargeChecker.check_third_party_caveat`. -/
def localDischargeChecker (info : Codec.ThirdPartyCaveatInfo) :
    Except PyErr (List Checkers.Caveat) :=
  if info.condition ≠ "true".data then .error .caveatNotRecognized
  else .ok []

/-- `discharge` from `discharge.py`.  `parse_caveat` (from the
`checkers.caveat` module, not among the sources) and the checker are
parameters; a `ValueError` from parsing is re-raised as
`VerificationError` as in the source.  The final statement of the
source, `Macaroon(cav_info.root_key, id, '', cav_info.version,
cav_info.namespace)`, evaluates `cav_info.namespace`; the
`ThirdPartyCaveatInfo` class of `macaroon.py` defines `ns` and no
`namespace` attribute, so that lookup raises `AttributeError`
unconditionally and the construction is never reached.  Likewise the
need-declared branch calls `cav_info._replace`, a namedtuple method the
class does not define.  (The model passes the unwrapped condition to
`parse_caveat` although the class stores a 1-tuple; the failure proved
holds for every behaviour of `parse_caveat`, so this only strengthens
the result.) -/
def discharge (id : PyBytes) (caveat : Option PyBytes) (key : Nat)
    (parse_caveat : PyStr → Except PyErr (PyStr × PyStr))
    (checker : Codec.ThirdPartyCaveatInfo → Except PyErr (List Checkers.Caveat)) :
    Except PyErr BMacaroon :=
  let caveat' := match caveat with
    | none => id
    | some c => c
  match Codec.decode_caveat key caveat' with
  | .error e => .error e
  | .ok cav_info =>
    match parse_caveat cav_info.condition with
    | .error (.valueError msg) => .error (.verificationError msg)
    | .error e => .error e
    | .ok (cond, _arg) =>
      let caveatsE : Except PyErr (List Checkers.Caveat) :=
        if cond = Checkers.COND_NEED_DECLARED then
          .error (.attributeError ("_replace".data))
        else checker cav_info
      match caveatsE with
      | .error e => .error e
      | .ok _caveats => .error (.attributeError ("namespace".data))

/-- The loop of `discharge_all`: FIFO queue of `_NeedCaveat`, new caveats
appended at the back; each acquired discharge is bound to the primary
with `prepare_for_request` before being appended to the result list.
The fuel bounds the iteration (an embedding artifact: each step consumes
one unit, so any fuel at least the number of discharges behaves as the
unbounded Python loop). -/
def discharge_all_loop
    (get_discharge : PCaveat → Option PyBytes → Except PyErr BMacaroon)
    (local_key : Option Nat)
    (parse_caveat : PyStr → Except PyErr (PyStr × PyStr))
    (primary : PMacaroon) :
    Nat → List NeedCaveat → List PMacaroon → Except PyErr (List PMacaroon)
  | _, [], discharges => .ok discharges
  | 0, _ :: _, _ => .error (.exception ("fuel exhausted".data))
  | fuel + 1, cav :: rest, discharges =>
    let dmE :=
      if local_key.isSome ∧ cav.cav.location = some ("local".data) then
        discharge cav.cav.caveat_id cav.encrypted_caveat (local_key.getD 0)
          parse_caveat localDischargeChecker
      else get_discharge cav.cav cav.encrypted_caveat
    match dmE with
    | .error e => .error e
    | .ok dm =>
      let m := prepare_for_request primary dm.macaroon
      discharge_all_loop get_discharge local_key parse_caveat primary fuel
        (rest ++ add_caveats dm) (discharges ++ [m])

/-- `discharge_all` from `discharge.py`: start from `[primary]` and the
primary's third-party caveats. -/
def discharge_all (m : BMacaroon)
    (get_discharge : PCaveat → Option PyBytes → Except PyErr BMacaroon)
    (local_key : Option Nat)
    (parse_caveat : PyStr → Except PyErr (PyStr × PyStr))
    (fuel : Nat) : Except PyErr (List PMacaroon) :=
  discharge_all_loop get_discharge local_key parse_caveat m.macaroon fuel
    (add_caveats m) [m.macaroon]

end Discharge

namespace Discharge

/-- A node of the discharge tree: the queued caveat, the discharge
macaroon acquired for it, and the children its macaroon requires. -/
inductive DNode where
  | mk (need : NeedCaveat) (dm : BMacaroon) (children : List DNode)

/-- The queued caveat of a node. -/
def DNode.need : DNode → NeedCaveat
  | .mk n _ _ => n

/-- The discharge macaroon of a node. -/
def DNode.dm : DNode → BMacaroon
  | .mk _ d _ => d

/-- The children of a node. -/
def DNode.children : DNode → List DNode
  | .mk _ _ c => c

mutual

/-- Number of nodes of a tree. -/
def DNode.weight : DNode → Nat
  | .mk _ _ children => 1 + weightList children

/-- Number of nodes of a forest. -/
def weightList : List DNode → Nat
  | [] => 0
  | n :: rest => DNode.weight n + weightList rest

end

theorem weightList_append (a b : List DNode) :
    weightList (a ++ b) = weightList a + weightList b := by
  induction a with
  | nil => simp [weightList]
  | cons n rest ih =>
    simp only [List.cons_append, List.append_eq, weightList] at ih ⊢
    omega

theorem weight_pos (n : DNode) : 1 ≤ n.weight := by
  cases n with
  | mk need dm children => simp [DNode.weight]

/-- Queue-based breadth-first traversal of a forest: visit the head,
enqueue its children at the back. -/
def queueBFS : List DNode → List DNode
  | [] => []
  | n :: rest => n :: queueBFS (rest ++ n.children)
termination_by q => weightList q
decreasing_by
  simp only [weightList_append]
  cases n with
  | mk need dm children =>
    simp only [weightList, DNode.weight, DNode.children]
    omega

theorem queueBFS_nil : queueBFS [] = [] := by
  simp [queueBFS]

theorem queueBFS_cons (n : DNode) (rest : List DNode) :
    queueBFS (n :: rest) = n :: queueBFS (rest ++ n.children) := by
  simp [queueBFS]

/-- Nodes of a forest, counted level by level. -/
theorem weightList_flatMap (p : List DNode) :
    weightList (p.flatMap DNode.children) + p.length = weightList p := by
  induction p with
  | nil => simp [weightList]
  | cons m r ihp =>
    cases m with
    | mk need dm children =>
      simp only [List.flatMap_cons, weightList_append, List.length_cons,
        weightList, DNode.weight, DNode.children] at *
      omega

/-- Level-order (textbook BFS) of a forest: a whole level, then the
concatenation of its children. -/
def levelOrder : List DNode → List DNode
  | [] => []
  | n :: rest => (n :: rest) ++ levelOrder ((n :: rest).flatMap DNode.children)
termination_by q => weightList q
decreasing_by
  have h2 := weightList_flatMap (n :: rest)
  simp only [List.length_cons] at h2
  have h3 := weight_pos n
  simp only [weightList] at h2 ⊢
  omega

theorem levelOrder_nil : levelOrder [] = [] := by
  simp [levelOrder]

theorem levelOrder_cons (n : DNode) (rest : List DNode) :
    levelOrder (n :: rest) =
      (n :: rest) ++ levelOrder ((n :: rest).flatMap DNode.children) := by
  simp [levelOrder]

/-- The queue rotation identity: processing a prefix of the queue visits
it and enqueues its children behind the rest. -/
theorem queueBFS_append (q1 : List DNode) : ∀ (q2 : List DNode),
    queueBFS (q1 ++ q2) = q1 ++ queueBFS (q2 ++ q1.flatMap DNode.children) := by
  induction q1 with
  | nil =>
    intro q2
    simp
  | cons n q1' ih =>
    intro q2
    rw [List.cons_append, queueBFS_cons]
    rw [List.append_assoc, ih (q2 ++ n.children)]
    simp [List.append_assoc]

/-- The queue traversal is level order. -/
theorem queueBFS_eq_levelOrder (q : List DNode) :
    queueBFS q = levelOrder q := by
  have key : ∀ (w : Nat) (q : List DNode), weightList q ≤ w →
      queueBFS q = levelOrder q := by
    intro w
    induction w with
    | zero =>
      intro q hq
      cases q with
      | nil => rw [queueBFS_nil, levelOrder_nil]
      | cons n rest =>
        have := weight_pos n
        simp only [weightList] at hq
        omega
    | succ w ih =>
      intro q hq
      cases q with
      | nil => rw [queueBFS_nil, levelOrder_nil]
      | cons n rest =>
        have h1 : queueBFS (n :: rest) =
            (n :: rest) ++ queueBFS ((n :: rest).flatMap DNode.children) := by
          have := queueBFS_append (n :: rest) []
          simpa using this
        rw [h1, levelOrder_cons]
        have h2 := weightList_flatMap (n :: rest)
        simp only [List.length_cons] at h2
        rw [ih _ (by omega)]
  exact key (weightList q) q (le_refl _)

/-- Consistency of a discharge tree with the acquisition function: the
function returns the node's macaroon for the node's caveat, and the
children are exactly the macaroon's third-party caveats, in order. -/
inductive NodeOK
    (g : PCaveat → Option PyBytes → Except PyErr BMacaroon) : DNode → Prop where
  | mk : ∀ (need : NeedCaveat) (dm : BMacaroon) (children : List DNode),
      g need.cav need.encrypted_caveat = .ok dm →
      children.map DNode.need = add_caveats dm →
      (∀ c ∈ children, NodeOK g c) →
      NodeOK g (.mk need dm children)

/-- The queue loop of `discharge_all` discharges a consistent forest in
queue (breadth-first) order, binding every discharge to the primary. -/
theorem discharge_all_loop_queueBFS
    (g : PCaveat → Option PyBytes → Except PyErr BMacaroon)
    (pc : PyStr → Except PyErr (PyStr × PyStr)) (primary : PMacaroon) :
    ∀ (fuel : Nat) (q : List DNode) (acc : List PMacaroon),
      (∀ n ∈ q, NodeOK g n) → weightList q ≤ fuel →
      discharge_all_loop g none pc primary fuel (q.map DNode.need) acc =
        .ok (acc ++ (queueBFS q).map
          (fun n => prepare_for_request primary n.dm.macaroon)) := by
  intro fuel
  induction fuel with
  | zero =>
    intro q acc hok hw
    cases q with
    | nil => simp [discharge_all_loop, queueBFS_nil]
    | cons n rest =>
      have := weight_pos n
      simp only [weightList] at hw
      omega
  | succ fuel ih =>
    intro q acc hok hw
    cases q with
    | nil => simp [discharge_all_loop, queueBFS_nil]
    | cons n rest =>
      have hn := hok n (by simp)
      cases hn with
      | mk need dm children hg hneed hch =>
        simp only [List.map_cons, discharge_all_loop, DNode.need]
        rw [if_neg (by simp)]
        simp only [hg]
        rw [← hneed, ← List.map_append]
        rw [ih (rest ++ children) (acc ++ [prepare_for_request primary dm.macaroon])
          (fun m hm => by
            rcases List.mem_append.mp hm with hm | hm
            · exact hok m (by simp [hm])
            · exact hch m hm)
          (by
            rw [weightList_append]
            simp only [weightList, DNode.weight] at hw ⊢
            omega)]
        rw [queueBFS_cons]
        simp [DNode.dm, DNode.children, List.append_assoc]

end Discharge

/-! ## Client discharge hook (`httpbakery/client.py`) -/

namespace HttpBakery

/-- `MAX_DISCHARGE_RETRIES` from `client.py`. -/
def MAX_DISCHARGE_RETRIES : Nat := 3

/-- `ERR_DISCHARGE_REQUIRED` from `httpbakery/error.py`. -/
def ERR_DISCHARGE_REQUIRED : PyStr := "macaroon discharge required".data

/-- What the hook reads off a response: the status code, the
`WWW-Authenticate` and `Content-Type` headers, and the `Code` field of
the JSON body. -/
structure HttpResponse where
  status_code : Nat
  www_authenticate : Option PyStr
  content_type : Option PyStr
  code : Option PyStr
deriving DecidableEq, Repr

/-- Does the hook treat the response as a discharge-required error?
(The guard chain of `hook` in `_prepare_discharge_hook`.) -/
def isDischargeRequired (r : HttpResponse) : Bool :=
  if r.status_code ≠ 407 ∧ r.status_code ≠ 401 then false
  else if r.status_code = 401 ∧ r.www_authenticate ≠ some ("Macaroon".data)
    then false
  else if r.content_type ≠ some ("application/json".data) then false
  else if r.code ≠ some ERR_DISCHARGE_REQUIRED then false
  else true

/-- The abort message: `'too many ({}) discharge requests'.format(count)`. -/
def tooManyMsg (count : Nat) : PyStr :=
  "too many (".data ++ Nat.toDigits 10 count ++ ") discharge requests".data

/-- One invocation of the hook of `_prepare_discharge_hook`, at retry
count `count`.  Non-discharge-required responses pass through; otherwise
the count is incremented and checked against `MAX_DISCHARGE_RETRIES`
before discharging.  Everything after the retry guard (reading `Info`,
`discharge_all`, setting the cookie and retrying the request) is
abstracted as `proceed`, which may itself fail.  Returns the new count
and whether a discharge round was performed. -/
def hook_step (proceed : HttpResponse → Except PyErr Unit) (count : Nat)
    (r : HttpResponse) : Except PyErr (Nat × Bool) :=
  if ¬ isDischargeRequired r then .ok (count, false)
  else
    let count' := count + 1
    if MAX_DISCHARGE_RETRIES ≤ count' then
      .error (.bakeryException (tooManyMsg count'))
    else
      match proceed r with
      | .error e => .error e
      | .ok _ => .ok (count', true)

/-- The hook across the responses of one request, threading the mutable
`Retry.count` and counting performed discharges. -/
def hook_run (proceed : HttpResponse → Except PyErr Unit) :
    Nat → Nat → List HttpResponse → Except PyErr (Nat × Nat)
  | count, discharges, [] => .ok (count, discharges)
  | count, discharges, r :: rest =>
    match hook_step proceed count r with
    | .error e => .error e
    | .ok (count', true) => hook_run proceed count' (discharges + 1) rest
    | .ok (count', false) => hook_run proceed count' discharges rest

/-- The run invariant: at most 2 discharge rounds ever complete, and the
retry abort (when it fires) reports count 3. -/
theorem hook_run_inv (proceed : HttpResponse → Except PyErr Unit) :
    ∀ (rs : List HttpResponse) (c d : Nat), c ≤ 2 → d ≤ c →
      (∀ c' d', hook_run proceed c d rs = .ok (c', d') →
        c' ≤ 2 ∧ d' ≤ d + (2 - c)) ∧
      (∀ e, hook_run proceed c d rs = .error e →
        e = .bakeryException (tooManyMsg 3) ∨ ∃ r, proceed r = .error e) := by
  intro rs
  induction rs with
  | nil =>
    intro c d hc hd
    refine ⟨fun c' d' h => ?_, fun e h => ?_⟩
    · rw [hook_run] at h
      injection h with h1
      injection h1 with h2 h3
      omega
    · rw [hook_run] at h
      exact Except.noConfusion h
  | cons r rest ih =>
    intro c d hc hd
    constructor
    · intro c' d' h
      rw [hook_run] at h
      by_cases hreq : isDischargeRequired r
      · rw [hook_step, if_neg (by simp [hreq])] at h
        by_cases hmax : MAX_DISCHARGE_RETRIES ≤ c + 1
        · rw [if_pos hmax] at h
          simp only at h
          exact Except.noConfusion h
        · rw [if_neg hmax] at h
          simp only [MAX_DISCHARGE_RETRIES] at hmax
          cases hp : proceed r with
          | error e =>
            rw [hp] at h
            simp only at h
            exact Except.noConfusion h
          | ok u =>
            rw [hp] at h
            simp only at h
            have := ((ih (c + 1) (d + 1) (by omega) (by omega)).1) c' d' h
            omega
      · rw [hook_step, if_pos (by simp [hreq])] at h
        simp only at h
        have := ((ih c d hc hd).1) c' d' h
        omega
    · intro e h
      rw [hook_run] at h
      by_cases hreq : isDischargeRequired r
      · rw [hook_step, if_neg (by simp [hreq])] at h
        by_cases hmax : MAX_DISCHARGE_RETRIES ≤ c + 1
        · rw [if_pos hmax] at h
          simp only at h
          injection h with h1
          left
          rw [← h1]
          simp only [MAX_DISCHARGE_RETRIES] at hmax
          have hceq : c + 1 = 3 := by omega
          rw [hceq]
        · rw [if_neg hmax] at h
          simp only [MAX_DISCHARGE_RETRIES] at hmax
          cases hp : proceed r with
          | error e' =>
            rw [hp] at h
            simp only at h
            injection h with h1
            right
            exact ⟨r, by rw [hp, h1]⟩
          | ok u =>
            rw [hp] at h
            simp only at h
            exact ((ih (c + 1) (d + 1) (by omega) (by omega)).2) e h
      · rw [hook_step, if_pos (by simp [hreq])] at h
        simp only at h
        exact ((ih c d hc hd).2) e h

end HttpBakery

/-! ## The claims -/

/-- C2: `discharge` is claimed to mint and return a discharge macaroon
for every decodable third-party caveat.  In fact it never returns: its
final statement evaluates `cav_info.namespace`, an attribute the
`ThirdPartyCaveatInfo` class does not define (its field is `ns`), so
every call raises - whatever the caveat, key, caveat parser or checker
do. -/
theorem C2_discharge_never_succeeds (id : PyBytes) (caveat : Option PyBytes)
    (key : Nat) (parse_caveat : PyStr → Except PyErr (PyStr × PyStr))
    (checker : Codec.ThirdPartyCaveatInfo → Except PyErr (List Checkers.Caveat)) :
    ∃ e, Discharge.discharge id caveat key parse_caveat checker = .error e := by
  rw [Discharge.discharge.eq_def]
  cases hdec : Codec.decode_caveat key (match caveat with
      | none => id
      | some c => c) with
  | error e => exact ⟨e, by simp only [hdec]⟩
  | ok cav_info =>
    cases hp : parse_caveat cav_info.condition with
    | error e =>
      cases e <;> exact ⟨_, by simp only [hdec, hp]; try rfl⟩
    | ok p =>
      obtain ⟨cond, arg⟩ := p
      by_cases hc : cond = Checkers.COND_NEED_DECLARED
      · exact ⟨_, by simp only [hdec, hp]; rw [if_pos hc]⟩
      · cases hch : checker cav_info with
        | error e => exact ⟨e, by simp only [hdec, hp]; rw [if_neg hc, hch]⟩
        | ok cavs => exact ⟨_, by simp only [hdec, hp]; rw [if_neg hc, hch]⟩

/-- C4 (corrected): across any sequence of responses, the hook completes
at most 2 discharge rounds - not 3; the only error the retry guard
raises is `'too many (3) discharge requests'` (any other failure comes
from the post-guard discharge machinery, abstracted as `proceed`); and
`MAX_DISCHARGE_RETRIES` is 3. -/
theorem C4_retry_bound (proceed : HttpBakery.HttpResponse → Except PyErr Unit)
    (rs : List HttpBakery.HttpResponse) :
    (∀ c' d', HttpBakery.hook_run proceed 0 0 rs = .ok (c', d') → d' ≤ 2) ∧
    (∀ e, HttpBakery.hook_run proceed 0 0 rs = .error e →
      e = .bakeryException (HttpBakery.tooManyMsg 3) ∨
        ∃ r, proceed r = .error e) ∧
    HttpBakery.MAX_DISCHARGE_RETRIES = 3 := by
  have h := HttpBakery.hook_run_inv proceed rs 0 0 (by omega) (by omega)
  exact ⟨fun c' d' hok => by have := h.1 c' d' hok; omega, h.2, rfl⟩

/-- A discharge-required response: 401 with the `Macaroon` challenge, a
JSON body whose `Code` is `ERR_DISCHARGE_REQUIRED`. -/
def dischargeReqResp : HttpBakery.HttpResponse :=
  ⟨401, some ("Macaroon".data), some ("application/json".data),
    some HttpBakery.ERR_DISCHARGE_REQUIRED⟩

/-- C4, counterexample to the claimed bound of 3: on the third
discharge-required response the hook aborts with
`'too many (3) discharge requests'`, after only 2 discharge rounds. -/
theorem C4_counterexample :
    HttpBakery.hook_run (fun _ => .ok ()) 0 0
        (List.replicate 3 dischargeReqResp) =
      .error (.bakeryException ("too many (3) discharge requests".data)) ∧
    HttpBakery.hook_run (fun _ => .ok ()) 0 0
        (List.replicate 2 dischargeReqResp) = .ok (2, 2) ∧
    (2 : Nat) ≠ 3 :=
  ⟨rfl, rfl, by decide⟩

/-- C7: the condition of the caveat returned by `time_before_caveat(t)`
renders `datetime.datetime.now()`, not `t`: the argument is ignored, so
the condition differs from the claimed `'time-before ' + rfc3339(t)`
whenever the two instants render differently.  The caveat does sit in
the std namespace. -/
theorem C7_time_before_ignores_expiry {DT : Type} (rfc3339 : DT → PyStr)
    (now t : DT) (hnn : rfc3339 now ≠ []) (hne : rfc3339 now ≠ rfc3339 t) :
    (Checkers.time_before_caveat rfc3339 now t).condition =
      Checkers.COND_TIME_BEFORE ++ ' ' :: rfc3339 now ∧
    (Checkers.time_before_caveat rfc3339 now t).condition ≠
      Checkers.COND_TIME_BEFORE ++ ' ' :: rfc3339 t ∧
    (Checkers.time_before_caveat rfc3339 now t).ns =
      some Checkers.STD_NAMESPACE := by
  have h1 : (Checkers.time_before_caveat rfc3339 now t).condition =
      Checkers.COND_TIME_BEFORE ++ ' ' :: rfc3339 now := by
    simp [Checkers.time_before_caveat, Checkers.first_party, hnn]
  refine ⟨h1, ?_, rfl⟩
  rw [h1]
  intro h
  have h2 := List.append_cancel_left h
  injection h2 with _ h3
  exact hne h3

/-- C7 witness: a concrete clock and rendering where `now` and `t`
render differently. -/
theorem C7_witness :
    ((fun n => [Char.ofNat (48 + n % 10)]) 1 ≠ ([] : PyStr) ∧
     (fun n => [Char.ofNat (48 + n % 10)]) 1 ≠
       (fun n => [Char.ofNat (48 + n % 10)]) 2) ∧
    ((Checkers.time_before_caveat (fun n => [Char.ofNat (48 + n % 10)]) 1 2).condition =
      Checkers.COND_TIME_BEFORE ++ ' ' ::
        (fun n => [Char.ofNat (48 + n % 10)]) 1 ∧
    (Checkers.time_before_caveat (fun n => [Char.ofNat (48 + n % 10)]) 1 2).condition ≠
      Checkers.COND_TIME_BEFORE ++ ' ' ::
        (fun n => [Char.ofNat (48 + n % 10)]) 2 ∧
    (Checkers.time_before_caveat (fun n => [Char.ofNat (48 + n % 10)]) 1 2).ns =
      some Checkers.STD_NAMESPACE) :=
  ⟨⟨by decide, by decide⟩,
    C7_time_before_ignores_expiry (fun n => [Char.ofNat (48 + n % 10)]) 1 2
      (by decide) (by decide)⟩

/-- C8: `MemoryOpsStore` is insertion-once - on a store where `key` is
fresh, a second `put_ops` for the same key changes nothing and `get_ops`
still returns the first operations; and on any store built by `put_ops`
calls, `get_ops` raises `KeyError` exactly for the keys never put. -/
theorem C8_store_insertion_once (tr : List (PyStr × Nat × List Store.Op))
    (key : PyStr) (t t' : Nat) (ops1 ops2 : List Store.Op)
    (hfresh : ∀ e ∈ tr, ¬e.1 = key) :
    Store.put_ops (Store.put_ops (Store.runPuts tr) key t ops1) key t' ops2 =
      Store.put_ops (Store.runPuts tr) key t ops1 ∧
    Store.get_ops (Store.put_ops (Store.put_ops (Store.runPuts tr) key t ops1)
      key t' ops2) key = .ok ops1 ∧
    (∀ (tr2 : List (PyStr × Nat × List Store.Op)) (k2 : PyStr),
      (∃ msg, Store.get_ops (Store.runPuts tr2) k2 = .error msg) ↔
        ∀ e ∈ tr2, ¬e.1 = k2) := by
  have hnone : Store.storeGet (Store.runPuts tr) key = none :=
    (Store.storeGet_runPuts_none_iff tr key).mpr hfresh
  refine ⟨Store.put_ops_put_ops _ _ _ _ _ _, ?_, ?_⟩
  · rw [Store.put_ops_put_ops]
    exact Store.get_ops_after_put _ _ _ _ hnone
  · intro tr2 k2
    rw [← Store.storeGet_runPuts_none_iff tr2 k2]
    constructor
    · intro ⟨msg, hmsg⟩
      rw [Store.get_ops] at hmsg
      cases hg : Store.storeGet (Store.runPuts tr2) k2 with
      | none => rfl
      | some v =>
        rw [hg] at hmsg
        simp only at hmsg
        exact Except.noConfusion hmsg
    · intro hg
      rw [Store.get_ops, hg]
      exact ⟨_, rfl⟩

/-- C8 witness: a fresh store, one key. -/
theorem C8_witness :
    (∀ e ∈ ([] : List (PyStr × Nat × List Store.Op)), ¬e.1 = "k".data) ∧
    (Store.put_ops (Store.put_ops (Store.runPuts []) "k".data 0
        [⟨"e".data, "read".data⟩]) "k".data 1 []
      = Store.put_ops (Store.runPuts []) "k".data 0 [⟨"e".data, "read".data⟩] ∧
    Store.get_ops (Store.put_ops (Store.put_ops (Store.runPuts []) "k".data 0
        [⟨"e".data, "read".data⟩]) "k".data 1 []) "k".data =
      .ok [⟨"e".data, "read".data⟩] ∧
    (∀ (tr2 : List (PyStr × Nat × List Store.Op)) (k2 : PyStr),
      (∃ msg, Store.get_ops (Store.runPuts tr2) k2 = .error msg) ↔
        ∀ e ∈ tr2, ¬e.1 = k2)) :=
  ⟨by simp,
    C8_store_insertion_once [] "k".data 0 1 [⟨"e".data, "read".data⟩] []
      (by simp)⟩

/-- C9: the uvarint round trip - for every `n` up to `2^64 - 1` (in
fact for every `n`), `_decode_uvarint` recovers `n` and the exact
number of bytes `_encode_uvarint` emitted. -/
theorem C9_uvarint_roundtrip (n : Nat) (h : n ≤ 2 ^ 64 - 1) :
    Codec.decode_uvarint (Codec.encode_uvarint n) =
      (n, (Codec.encode_uvarint n).length) :=
  Codec.decode_encode_uvarint n

/-- C9 witness at `n = 300` (a two-byte encoding). -/
theorem C9_witness : (300 : Nat) ≤ 2 ^ 64 - 1 ∧
    Codec.decode_uvarint (Codec.encode_uvarint 300) =
      (300, (Codec.encode_uvarint 300).length) :=
  ⟨by norm_num, C9_uvarint_roundtrip 300 (by norm_num)⟩

/-- C10: `ThirdPartyCaveatInfo.__eq__` never inspects `root_key`: two
infos agreeing on condition, keys, caveat, version and namespace are
equal even with different root keys. -/
theorem C10_eq_ignores_root_key (a b : Codec.ThirdPartyCaveatInfo)
    (hc : a.condition = b.condition)
    (hf : a.first_party_public_key = b.first_party_public_key)
    (ht : a.third_party_key_pair = b.third_party_key_pair)
    (hcv : a.caveat = b.caveat) (hv : a.version = b.version)
    (hn : NS.nsEq a.ns b.ns = true) (hr : a.root_key ≠ b.root_key) :
    Codec.infoEq a b = true := by
  simp [Codec.infoEq, hc, hf, ht, hcv, hv, hn]

/-- C10 witness: two concrete infos differing only in `root_key`. -/
theorem C10_witness :
    (("c".data : PyStr) = "c".data ∧ (1 : Nat) = 1 ∧ (2 : Nat) = 2 ∧
     ([7] : PyBytes) = [7] ∧ (3 : Nat) = 3 ∧
     NS.nsEq ⟨[]⟩ ⟨[]⟩ = true ∧ ([0] : PyBytes) ≠ [1]) ∧
    Codec.infoEq ⟨"c".data, 1, 2, [0], [7], 3, ⟨[]⟩⟩
      ⟨"c".data, 1, 2, [1], [7], 3, ⟨[]⟩⟩ = true :=
  ⟨⟨rfl, rfl, rfl, rfl, rfl, by decide, by decide⟩,
    C10_eq_ignores_root_key ⟨"c".data, 1, 2, [0], [7], 3, ⟨[]⟩⟩
      ⟨"c".data, 1, 2, [1], [7], 3, ⟨[]⟩⟩ rfl rfl rfl rfl rfl (by decide)
      (by decide)⟩

/-- C3: for a macaroon whose third-party caveats can all be discharged
(a consistent discharge forest for `get_discharge`, no local key),
`discharge_all` returns the underlying primary first, then one
discharge per third-party caveat in breadth-first (level) order over
the caveat tree rooted at the primary, each bound to the primary by
`prepare_for_request` before being appended. -/
theorem C3_discharge_all_bfs (m : Discharge.BMacaroon)
    (g : Discharge.PCaveat → Option PyBytes → Except PyErr Discharge.BMacaroon)
    (pc : PyStr → Except PyErr (PyStr × PyStr))
    (roots : List Discharge.DNode) (fuel : Nat)
    (hroots : roots.map Discharge.DNode.need = Discharge.add_caveats m)
    (hok : ∀ n ∈ roots, Discharge.NodeOK g n)
    (hfuel : Discharge.weightList roots ≤ fuel) :
    Discharge.discharge_all m g none pc fuel =
      .ok (m.macaroon :: (Discharge.levelOrder roots).map
        (fun n => Discharge.prepare_for_request m.macaroon n.dm.macaroon)) := by
  rw [Discharge.discharge_all, ← hroots]
  rw [Discharge.discharge_all_loop_queueBFS g pc m.macaroon fuel roots
    [m.macaroon] hok hfuel]
  rw [Discharge.queueBFS_eq_levelOrder]
  simp

/-- C3 witness: a primary with one third-party caveat, discharged by a
macaroon with no further caveats. -/
theorem C3_witness :
    (List.map Discharge.DNode.need
        [Discharge.DNode.mk ⟨⟨[5], some ("loc".data)⟩, none⟩
          ⟨⟨[2], [], [], 9⟩, []⟩ []] =
      Discharge.add_caveats ⟨⟨[1], [], [⟨[5], some ("loc".data)⟩], 7⟩, []⟩ ∧
     (∀ n ∈ [Discharge.DNode.mk ⟨⟨[5], some ("loc".data)⟩, none⟩
          ⟨⟨[2], [], [], 9⟩, []⟩ []],
        Discharge.NodeOK (fun _ _ => .ok ⟨⟨[2], [], [], 9⟩, []⟩) n) ∧
     Discharge.weightList
        [Discharge.DNode.mk ⟨⟨[5], some ("loc".data)⟩, none⟩
          ⟨⟨[2], [], [], 9⟩, []⟩ []] ≤ 1) ∧
    Discharge.discharge_all ⟨⟨[1], [], [⟨[5], some ("loc".data)⟩], 7⟩, []⟩
        (fun _ _ => .ok ⟨⟨[2], [], [], 9⟩, []⟩) none
        (fun _ => .error .unpackError) 1 =
      .ok (Discharge.PMacaroon.mk [1] [] [⟨[5], some ("loc".data)⟩] 7 ::
        (Discharge.levelOrder
          [Discharge.DNode.mk ⟨⟨[5], some ("loc".data)⟩, none⟩
            ⟨⟨[2], [], [], 9⟩, []⟩ []]).map
          (fun n => Discharge.prepare_for_request
            ⟨[1], [], [⟨[5], some ("loc".data)⟩], 7⟩ n.dm.macaroon)) :=
  ⟨⟨rfl,
    fun n hn => by
      simp only [List.mem_singleton] at hn
      subst hn
      exact Discharge.NodeOK.mk _ _ _ rfl rfl
        (fun c hc => absurd hc (List.not_mem_nil c)),
    by decide⟩,
    C3_discharge_all_bfs ⟨⟨[1], [], [⟨[5], some ("loc".data)⟩], 7⟩, []⟩
      (fun _ _ => .ok ⟨⟨[2], [], [], 9⟩, []⟩)
      (fun _ => .error .unpackError)
      [Discharge.DNode.mk ⟨⟨[5], some ("loc".data)⟩, none⟩
        ⟨⟨[2], [], [], 9⟩, []⟩ []] 1 rfl
      (fun n hn => by
        simp only [List.mem_singleton] at hn
        subst hn
        exact Discharge.NodeOK.mk _ _ _ rfl rfl
          (fun c hc => absurd hc (List.not_mem_nil c)))
      (by decide)⟩

/-- C5 (corrected): `decode_caveat` treats a first byte of `'e'` as V1;
for a version-3-tagged caveat it raises the payload-not-provided error
exactly when the input is shorter than `_VERSION3_CAVEAT_MIN_LEN`,
which is 78 bytes - not the 51 the spec claims; and with adequate
length it raises `'public key mismatch'` when the 4-byte key hint does
not match the recipient's key. -/
theorem C5_decoder_dispatch (key first : Nat) (rest : PyBytes)
    (h3 : first = Codec.BAKERY_V3) :
    (Codec.decode_caveat key (101 :: rest) =
        Codec.decode_caveat_v1 key (101 :: rest)) ∧
    (Codec.decode_caveat key (first :: rest) =
        .error Codec.payloadNotProvidedErr ↔
      (first :: rest).length < Codec.VERSION3_CAVEAT_MIN_LEN) ∧
    Codec.VERSION3_CAVEAT_MIN_LEN = 78 ∧
    (¬ (first :: rest).length < Codec.VERSION3_CAVEAT_MIN_LEN →
      (Crypto.pubkey_encode (Crypto.pub key)).take Codec.PUBLIC_KEY_PREFIX_LEN ≠
        rest.take Codec.PUBLIC_KEY_PREFIX_LEN →
      Codec.decode_caveat key (first :: rest) =
        .error (.valueError ("public key mismatch".data))) := by
  subst h3
  refine ⟨by simp [Codec.decode_caveat], ?_, rfl, ?_⟩
  · constructor
    · intro h
      by_contra hlen
      have hdisp : Codec.decode_caveat key (Codec.BAKERY_V3 :: rest) =
          Codec.decode_caveat_v2_v3 Codec.BAKERY_V3 key
            (Codec.BAKERY_V3 :: rest) := by
        simp only [Codec.decode_caveat]
        rw [if_neg (by decide), if_pos (Or.inr trivial),
          if_neg (fun hcon => hlen hcon.1)]
      rw [hdisp] at h
      exact Codec.decode_caveat_v2_v3_ne_payload _ _ _ h
    · intro hlen
      simp only [Codec.decode_caveat]
      rw [if_neg (by decide), if_pos (Or.inr trivial), if_pos ⟨hlen, trivial⟩]
      rfl
  · intro hlen hpk
    have hdisp : Codec.decode_caveat key (Codec.BAKERY_V3 :: rest) =
        Codec.decode_caveat_v2_v3 Codec.BAKERY_V3 key
          (Codec.BAKERY_V3 :: rest) := by
      simp only [Codec.decode_caveat]
      rw [if_neg (by decide), if_pos (Or.inr trivial),
        if_neg (fun hcon => hlen hcon.1)]
    rw [hdisp]
    rw [Codec.decode_caveat_v2_v3]
    rw [if_neg (by
      simp only [Codec.VERSION3_CAVEAT_MIN_LEN] at hlen
      simp only [Codec.PUBLIC_KEY_PREFIX_LEN, Codec.KEY_LEN, Codec.NONCE_SIZE]
      omega)]
    simp only [List.drop_succ_cons, List.drop_zero]
    rw [if_pos hpk]

/-- C5 witness: a 79-byte version-3 caveat whose key hint does not match
the recipient. -/
theorem C5_witness :
    ((3 : Nat) = Codec.BAKERY_V3) ∧
    ((Codec.decode_caveat 0 (101 :: List.replicate 78 (7 : Nat)) =
        Codec.decode_caveat_v1 0 (101 :: List.replicate 78 (7 : Nat))) ∧
    (Codec.decode_caveat 0 ((3 : Nat) :: List.replicate 78 (7 : Nat)) =
        .error Codec.payloadNotProvidedErr ↔
      ((3 : Nat) :: List.replicate 78 (7 : Nat)).length <
        Codec.VERSION3_CAVEAT_MIN_LEN) ∧
    Codec.VERSION3_CAVEAT_MIN_LEN = 78 ∧
    (¬ ((3 : Nat) :: List.replicate 78 (7 : Nat)).length <
        Codec.VERSION3_CAVEAT_MIN_LEN →
      (Crypto.pubkey_encode (Crypto.pub 0)).take Codec.PUBLIC_KEY_PREFIX_LEN ≠
        (List.replicate 78 (7 : Nat)).take Codec.PUBLIC_KEY_PREFIX_LEN →
      Codec.decode_caveat 0 ((3 : Nat) :: List.replicate 78 (7 : Nat)) =
        .error (.valueError ("public key mismatch".data)))) :=
  ⟨rfl, C5_decoder_dispatch 0 3 (List.replicate 78 (7 : Nat)) rfl⟩

/-- C5, counterexample to the 51-byte minimum: a 51-byte version-3
caveat is not shorter than the claimed minimum, yet `decode_caveat`
raises the payload-not-provided error (the real minimum is 78). -/
theorem C5_counterexample :
    Codec.decode_caveat 0 (3 :: List.replicate 50 0) =
      .error (.valueError
        ("caveat id payload not provided for caveat id".data)) ∧
    ¬ (3 :: List.replicate 50 (0 : Nat)).length < 51 :=
  ⟨rfl, by decide⟩

instance (d : NS.Dict) : Decidable (NS.NodupKeys d) :=
  inferInstanceAs (Decidable ((d.map Prod.fst).Nodup))

/-- C6 (corrected): for a non-empty namespace of registered-valid
entries with unique, colon-free URIs, `serialize` renders the entries
sorted by Python's pair order (so equal namespaces serialize equally),
and `deserialize_namespace` inverts it up to `Namespace.__eq__`.
(Without the added conditions the round trip fails: the spec's premise
admits colon-bearing URIs and the empty namespace, see the
counterexample.) -/
theorem C6_namespace_serialization (ns : NS.PyNamespace)
    (hval : NS.ValidEntries ns.entries)
    (hcolon : ∀ e ∈ ns.entries, ¬(e.1.contains ':' = true))
    (hnd : NS.NodupKeys ns.entries) (hne : ns.entries ≠ []) :
    (∃ es : NS.Dict, es.Perm ns.entries ∧
      es.Pairwise (fun a b => NS.pairLe a b = true) ∧
      NS.serializeStr ns = List.intercalate [' ']
        (es.map (fun e => e.1 ++ ':' :: e.2))) ∧
    (∀ ns2 : NS.PyNamespace, NS.NodupKeys ns2.entries →
      NS.nsEq ns ns2 = true → NS.serialize ns = NS.serialize ns2) ∧
    (∃ ns', NS.deserialize_namespace (NS.serialize ns) = .ok ns' ∧
      NS.nsEq ns' ns = true) := by
  refine ⟨NS.serializeStr_sorted ns, ?_, ?_⟩
  · intro ns2 hnd2 heq
    exact NS.serialize_deterministic hnd hnd2 heq
  · obtain ⟨ns', h1, h2, _⟩ := NS.deserialize_serialize ns hval hcolon hnd hne
    exact ⟨ns', h1, h2⟩

/-- C6 witness: a two-entry namespace. -/
theorem C6_witness :
    (NS.ValidEntries [("a".data, "p".data), ("b".data, [])] ∧
     (∀ e ∈ [(("a".data : PyStr), ("p".data : PyStr)), ("b".data, [])],
        ¬(e.1.contains ':' = true)) ∧
     NS.NodupKeys [(("a".data : PyStr), ("p".data : PyStr)), ("b".data, [])] ∧
     ([(("a".data : PyStr), ("p".data : PyStr)), ("b".data, [])] ≠ [])) ∧
    ((∃ es : NS.Dict,
        es.Perm (NS.PyNamespace.mk [("a".data, "p".data), ("b".data, [])]).entries ∧
        es.Pairwise (fun a b => NS.pairLe a b = true) ∧
        NS.serializeStr ⟨[("a".data, "p".data), ("b".data, [])]⟩ =
          List.intercalate [' '] (es.map (fun e => e.1 ++ ':' :: e.2))) ∧
     (∀ ns2 : NS.PyNamespace, NS.NodupKeys ns2.entries →
        NS.nsEq ⟨[("a".data, "p".data), ("b".data, [])]⟩ ns2 = true →
        NS.serialize ⟨[("a".data, "p".data), ("b".data, [])]⟩ =
          NS.serialize ns2) ∧
     (∃ ns', NS.deserialize_namespace
          (NS.serialize ⟨[("a".data, "p".data), ("b".data, [])]⟩) = .ok ns' ∧
        NS.nsEq ns' ⟨[("a".data, "p".data), ("b".data, [])]⟩ = true)) :=
  ⟨⟨by decide, by decide, by decide, by decide⟩,
    C6_namespace_serialization ⟨[("a".data, "p".data), ("b".data, [])]⟩
      (by decide) (by decide) (by decide) (by decide)⟩

/-- C6, counterexample to the unqualified round trip: the URI `a:b` is
valid by the spec's premise (non-empty, space-free) and its prefix is
clean, yet deserialising the serialisation fails - `a:b:p` unpacks into
three fields.  The empty namespace (premise vacuously true) fails the
same way. -/
theorem C6_counterexample :
    NS.ValidEntries [("a:b".data, "p".data)] ∧
    NS.deserialize_namespace
      (NS.serialize ⟨[("a:b".data, "p".data)]⟩) = .error .unpackError ∧
    NS.deserialize_namespace (NS.serialize ⟨[]⟩) = .error .unpackError := by
  refine ⟨by decide, ?_, ?_⟩
  · have hser : NS.serialize ⟨[("a:b".data, "p".data)]⟩ =
        Utf8.utf8Encode ("a:b:p".data) := by
      rw [NS.serialize]
      congr 1
      rw [NS.serializeStr, if_neg (by decide)]
      simp [List.mergeSort]
      decide
    rw [hser, NS.deserialize_namespace, Utf8.utf8Decode_utf8Encode]
    rfl
  · have hser : NS.serialize ⟨[]⟩ = [] := rfl
    rw [hser, NS.deserialize_namespace, Utf8.utf8Decode_nil]
    rfl

/-- C1 (corrected): the codec round trip for versions 1, 2 and 3.  The
decoded info always recovers the condition, both keys, the encoded
bytes, the version and the root key; but its namespace is the original
only for version 3 (and then only up to `Namespace.__eq__`, and only
when the namespace survives serialisation: non-empty, unique colon-free
URIs) - versions 1 and 2 always come back with the legacy `std`
namespace, so the unqualified claim fails (see the counterexample). -/
theorem C1_caveat_roundtrip (v : Nat) (cond : PyStr) (rk nonce : PyBytes)
    (fpSk tpSk : Nat) (ns : NS.PyNamespace)
    (hv : v = 1 ∨ v = 2 ∨ v = 3)
    (hrk : IsBytes rk) (hnb : IsBytes nonce)
    (hn : nonce.length = Codec.NONCE_SIZE)
    (hval : NS.ValidEntries ns.entries)
    (hcolon : ∀ e ∈ ns.entries, ¬(e.1.contains ':' = true))
    (hnd : NS.NodupKeys ns.entries) (hne : ns.entries ≠ []) :
    ∃ bs info,
      Codec.encode_caveat cond rk ⟨v, Crypto.pub tpSk⟩ fpSk ns nonce = .ok bs ∧
      Codec.decode_caveat tpSk bs = .ok info ∧
      Codec.infoEq info ⟨cond, Crypto.pub fpSk, tpSk, rk, bs, v,
        if v = Codec.BAKERY_V3 then ns else Codec.legacy_namespace⟩ = true ∧
      info.root_key = rk := by
  have hleg : NS.nsEq Codec.legacy_namespace Codec.legacy_namespace = true := by
    decide
  rcases hv with hv | hv | hv <;> subst hv
  · refine ⟨Codec.encode_caveat_v1 cond rk (Crypto.pub tpSk) fpSk nonce,
      ⟨cond, Crypto.pub fpSk, tpSk, rk,
        Codec.encode_caveat_v1 cond rk (Crypto.pub tpSk) fpSk nonce,
        Codec.BAKERY_V1, Codec.legacy_namespace⟩, rfl,
      Codec.roundtrip_v1 fpSk tpSk cond rk nonce hrk hnb hn, ?_, rfl⟩
    simp [Codec.infoEq, Codec.BAKERY_V1, Codec.BAKERY_V3, hleg]
  · refine ⟨Codec.encode_caveat_v2_v3 Codec.BAKERY_V2 cond rk (Crypto.pub tpSk)
        fpSk ns nonce,
      ⟨cond, Crypto.pub fpSk, tpSk, rk,
        Codec.encode_caveat_v2_v3 Codec.BAKERY_V2 cond rk (Crypto.pub tpSk)
          fpSk ns nonce,
        Codec.BAKERY_V2, Codec.legacy_namespace⟩, rfl,
      Codec.roundtrip_v2 fpSk tpSk cond rk nonce ns hrk hn, ?_, rfl⟩
    simp [Codec.infoEq, Codec.BAKERY_V2, Codec.BAKERY_V3, hleg]
  · obtain ⟨ns', hnseq, hdec⟩ :=
      Codec.roundtrip_v3 fpSk tpSk cond rk nonce ns hrk hn hval hcolon hnd hne
    refine ⟨Codec.encode_caveat_v2_v3 Codec.BAKERY_V3 cond rk (Crypto.pub tpSk)
        fpSk ns nonce,
      ⟨cond, Crypto.pub fpSk, tpSk, rk,
        Codec.encode_caveat_v2_v3 Codec.BAKERY_V3 cond rk (Crypto.pub tpSk)
          fpSk ns nonce,
        Codec.BAKERY_V3, ns'⟩, rfl, hdec, ?_, rfl⟩
    simp [Codec.infoEq, Codec.BAKERY_V3, hnseq]

/-- C1 witness: version 3, a one-entry namespace, concrete keys and
nonce. -/
theorem C1_witness :
    (((3 : Nat) = 1 ∨ (3 : Nat) = 2 ∨ (3 : Nat) = 3) ∧
     IsBytes [9] ∧ IsBytes (List.range 24) ∧
     (List.range 24).length = Codec.NONCE_SIZE ∧
     NS.ValidEntries [("t".data, "x".data)] ∧
     (∀ e ∈ [(("t".data : PyStr), ("x".data : PyStr))],
        ¬(e.1.contains ':' = true)) ∧
     NS.NodupKeys [(("t".data : PyStr), ("x".data : PyStr))] ∧
     ([(("t".data : PyStr), ("x".data : PyStr))] ≠ [])) ∧
    (∃ bs info,
      Codec.encode_caveat "c".data [9] ⟨3, Crypto.pub 3⟩ 5
        ⟨[("t".data, "x".data)]⟩ (List.range 24) = .ok bs ∧
      Codec.decode_caveat 3 bs = .ok info ∧
      Codec.infoEq info ⟨"c".data, Crypto.pub 5, 3, [9], bs, 3,
        if (3 : Nat) = Codec.BAKERY_V3 then ⟨[("t".data, "x".data)]⟩
        else Codec.legacy_namespace⟩ = true ∧
      info.root_key = [9]) :=
  ⟨⟨Or.inr (Or.inr rfl), by decide, by decide, by decide, by decide,
     by decide, by decide, by decide⟩,
    C1_caveat_roundtrip 3 "c".data [9] (List.range 24) 5 3
      ⟨[("t".data, "x".data)]⟩ (Or.inr (Or.inr rfl)) (by decide) (by decide)
      (by decide) (by decide) (by decide) (by decide) (by decide)⟩

/-- C1, counterexample to the unqualified claim: a version-2 caveat
decodes successfully, but the decoded info carries the legacy `std`
namespace, so it is not `__eq__` to an info built from the original
namespace. -/
theorem C1_counterexample :
    ∃ bs info,
      Codec.encode_caveat "c".data [9] ⟨2, Crypto.pub 3⟩ 5
        ⟨[("t".data, "x".data)]⟩ (List.range 24) = .ok bs ∧
      Codec.decode_caveat 3 bs = .ok info ∧
      Codec.infoEq info ⟨"c".data, Crypto.pub 5, 3, [9], bs, 2,
        ⟨[("t".data, "x".data)]⟩⟩ = false := by
  refine ⟨Codec.encode_caveat_v2_v3 Codec.BAKERY_V2 "c".data [9]
      (Crypto.pub 3) 5 ⟨[("t".data, "x".data)]⟩ (List.range 24),
    ⟨"c".data, Crypto.pub 5, 3, [9],
      Codec.encode_caveat_v2_v3 Codec.BAKERY_V2 "c".data [9] (Crypto.pub 3) 5
        ⟨[("t".data, "x".data)]⟩ (List.range 24),
      Codec.BAKERY_V2, Codec.legacy_namespace⟩, rfl,
    Codec.roundtrip_v2 5 3 "c".data [9] (List.range 24)
      ⟨[("t".data, "x".data)]⟩ (by decide) (by decide), ?_⟩
  have hns : NS.nsEq Codec.legacy_namespace ⟨[("t".data, "x".data)]⟩ = false := by
    decide
  simp [Codec.infoEq, Codec.BAKERY_V2, hns]
